import Mathlib

/-!
Permify: the schema AST (`pkg/dsl/ast/node.go`) and the Mongo relation-tuple
repository (`internal/repositories/mongo/relationTupleRepository.go`).

Go values are embedded as follows.

* A Go `string` is a Lean `String`; `strings.Builder` / `bytes.Buffer` is the
  string accumulated so far and `WriteString` appends to it.
* An interface value (`Statement`, `Expression`) is an inductive type with one
  constructor per implementing struct plus a constructor `nil` for the nil
  interface value.
* A method that can panic at run time (nil dereference, failed type assertion)
  returns `Option`: `none` is the panic.
* The Go `error` results are `Option Error`: `none` is the nil error.
* The Mongo driver is an interface `Driver σ` over an abstract backend state
  `σ`; the repository methods are written against that interface exactly as in
  the source, and `mongod` is a reference model of the documented behaviour of
  the driver calls the repository makes.
-/

namespace ast

/-- Modelled from the spec: package `token` is not among the sources. The AST
reads only the field `Literal` of a token; `Kind` stands for the token type. -/
structure Token where
  Kind : String
  Literal : String
deriving DecidableEq, Repr

/-- Modelled from the spec: the constant `tuple.USER` is not among the sources;
the spec reserves the entity name `user`. -/
def USER : String := "user"

/-- The Go interface `Expression` with its three implementations. -/
inductive Expression where
  | nil
  | Identifier (token : Token) (value : String)
  | InfixExpression (token : Token) (left : Expression) (operator : String) (right : Expression)
  | PrefixExpression (token : Token) (operator : String) (value : String)
deriving DecidableEq, Repr

/-- The Go interface `Statement` with its five implementations. -/
inductive Statement where
  | nil
  | EntityStatement (token name : Token) (relationStatements actionStatements : List Statement)
      (option : Token)
  | RelationStatement (token name : Token) (relationTypes : List Statement) (option : Token)
  | RelationTypeStatement (sign token : Token)
  | ActionStatement (token name : Token) (expressionStatement : Statement)
  | ExpressionStatement (expression : Expression)

/-- The type `Schema`. -/
structure Schema where
  Statements : List Statement

/-- The errors of package `ast` that the modelled code returns. -/
inductive Error where
  | UserEntityRequiredErr
deriving DecidableEq, Repr

/-- Method `WriteString` of `strings.Builder` and `bytes.Buffer`. -/
def WriteString (sb s : String) : String := sb ++ s

/-- The loop of `Schema.Validate`: `none` is the panic of the type assertion
`st.(*EntityStatement)` on a statement that is not an entity statement,
`some none` is `return nil`, `some (some e)` is `return e`. -/
def Validate.loop : List Statement → Option (Option Error)
  | [] => some (some Error.UserEntityRequiredErr)
  | st :: rest =>
    match st with
    | .EntityStatement _ name _ _ _ =>
      if name.Literal = USER then some none else Validate.loop rest
    | _ => none

/-- Method `Schema.Validate`. -/
def Schema.Validate (sch : Schema) : Option (Option Error) :=
  Validate.loop sch.Statements

/-- Methods `Identifier.IsInfix`, `InfixExpression.IsInfix` and
`PrefixExpression.IsInfix`; calling the method on a nil interface panics. -/
def Expression.IsInfix : Expression → Option Bool
  | .nil => none
  | .Identifier _ _ => some false
  | .InfixExpression _ _ _ _ => some true
  | .PrefixExpression _ _ _ => some false

/-- Methods `Identifier.Type`, `InfixExpression.Type` and
`PrefixExpression.Type`; calling the method on a nil interface panics. -/
def Expression.Type : Expression → Option String
  | .nil => none
  | .Identifier _ _ => some "identifier"
  | .InfixExpression _ _ _ _ => some "inflix"
  | .PrefixExpression _ _ _ => some "prefix"

/-- Methods `Identifier.String`, `InfixExpression.String` and
`PrefixExpression.String`; calling `String` on a nil interface panics. -/
def Expression.String : Expression → Option String
  | .nil => none
  | .Identifier _ value => some value
  | .InfixExpression _ left operator right =>
    let sb := WriteString "" "("
    match left.String with
    | none => none
    | some l =>
      let sb := WriteString sb l
      let sb := WriteString sb (" " ++ operator)
      let sb := WriteString sb " "
      match right.String with
      | none => none
      | some r =>
        let sb := WriteString sb r
        let sb := WriteString sb ")"
        some sb
  | .PrefixExpression _ operator value =>
    let sb := WriteString "" operator
    let sb := WriteString sb " "
    let sb := WriteString sb value
    some sb

mutual
/-- The `String` methods of the five statement types. -/
def Statement.String : Statement → Option String
  | .nil => none
  | .EntityStatement _ name relationStatements actionStatements option =>
    let sb := WriteString "" "entity"
    let sb := WriteString sb " "
    let sb := WriteString sb name.Literal
    let sb := WriteString sb " \x7b"
    let sb := WriteString sb "\n"
    match Statement.writeEach relationStatements "\n" sb with
    | none => none
    | some sb =>
      let sb := WriteString sb "\n"
      match Statement.writeEach actionStatements "\n" sb with
      | none => none
      | some sb =>
        let sb := WriteString sb "\x7d"
        let sb := WriteString sb " "
        let sb :=
          if option.Literal ≠ "" then
            WriteString (WriteString (WriteString sb "`") option.Literal) "`"
          else sb
        some (WriteString sb "\n")
  | .RelationStatement _ name relationTypes option =>
    let sb := WriteString "" "\trelation"
    let sb := WriteString sb " "
    let sb := WriteString sb name.Literal
    let sb := WriteString sb " "
    match Statement.writeEach relationTypes " " sb with
    | none => none
    | some sb =>
      let sb := WriteString sb " "
      let sb :=
        if option.Literal ≠ "" then
          WriteString (WriteString (WriteString sb "`") option.Literal) "`"
        else sb
      some sb
  | .RelationTypeStatement sign token =>
    let sb := WriteString "" sign.Literal
    let sb := WriteString sb token.Literal
    some sb
  | .ActionStatement token name expressionStatement =>
    let sb := WriteString "" ("\t" ++ token.Literal ++ " ")
    let sb := WriteString sb name.Literal
    let sb := WriteString sb " = "
    match expressionStatement with
    | .nil => some sb
    | es =>
      match es.String with
      | none => none
      | some s => some (WriteString sb s)
  | .ExpressionStatement expression =>
    match expression with
    | .nil => some ""
    | e => e.String
/-- The loops `for _, rs := range xs { sb.WriteString(rs.String()); sb.WriteString(sep) }`. -/
def Statement.writeEach : List Statement → String → String → Option String
  | [], _, sb => some sb
  | rs :: rest, sep, sb =>
    match rs.String with
    | none => none
    | some s => Statement.writeEach rest sep (WriteString (WriteString sb s) sep)
end

end ast

namespace mongo

/-- Modelled from the spec: the struct `entities.RelationTuple` is not among the
sources; its fields are the ones `Write` reads. `Kind` stands for the Go field
`Type`. -/
structure RelationTuple where
  Entity : String
  ObjectID : String
  Relation : String
  UsersetEntity : String
  UsersetObjectID : String
  UsersetRelation : String
  Kind : String
deriving DecidableEq, Repr

/-- Modelled from the spec: `entities.RelationTuple{}.Collection()` is not among
the sources; the spec names the collection `relation_tuples`. -/
def RelationTuple.Collection : String := "relation_tuples"

/-- Modelled from the spec: `entities.EntityConfig{}.Collection()` is not among
the sources; the spec names the collection `entity_configs`. -/
def EntityConfig.Collection : String := "entity_configs"

/-- Modelled from the spec: the method `RelationTuple.Tuple()` is not among the
sources. The spec gives the canonical string as
`entity:object_id#relation@userset_entity:userset_object_id#userset_relation`.
The repository functions take the method as a parameter; this instance is used
for concrete evaluations only. -/
def RelationTuple.Tuple (t : RelationTuple) : String :=
  t.Entity ++ ":" ++ t.ObjectID ++ "#" ++ t.Relation ++ "@" ++ t.UsersetEntity ++ ":" ++
    t.UsersetObjectID ++ "#" ++ t.UsersetRelation

/-- A BSON document (`bson.D`, `bson.M`) whose values are strings. -/
abbrev Document := List (String × String)

/-- Errors produced by the Mongo driver. -/
inductive DriverError where
  | DuplicateKey
  | NamespaceExists
  | ErrEmptySlice
  | Other (msg : String)
deriving DecidableEq, Repr

/-- The function `mongo.IsDuplicateKeyError`. -/
def IsDuplicateKeyError : DriverError → Bool
  | .DuplicateKey => true
  | _ => false

/-- Values of the Go type `error` that the repository returns: the sentinel
`database.ErrUniqueConstraint` (package `database` is not among the sources) or
an error of the driver passed through unchanged. -/
inductive Error where
  | ErrUniqueConstraint
  | Driver (e : DriverError)
deriving DecidableEq, Repr

/-- The driver calls made by the repository, over a backend state `σ`.
`RunCommandCreate c` is `RunCommand(bson.D{{"create", c}}).Decode(&result)`;
`CreateOneUnique c k` is `Collection(c).Indexes().CreateOne` of a unique index
with keys `{k: 1}`; `Find c filter sort` is `Collection(c).Find` with an
ascending sort on the listed fields, returning the cursor's documents;
`All` is `cursor.All(ctx, &tuples)`. -/
structure Driver (σ : Type) where
  RunCommandCreate : String → σ → σ × Option DriverError
  CreateOneUnique : String → String → σ → σ × Option DriverError
  Find : String → Document → List String → σ → Except DriverError (List Document)
  All : List Document → Except DriverError (List RelationTuple)
  InsertMany : String → List Document → σ → σ × Option DriverError
  DeleteOne : String → Document → σ → σ × Option DriverError

/-- Method `RelationTupleRepository.Migrate`. -/
def Migrate {σ : Type} (D : Driver σ) (s : σ) : σ × Option Error :=
  match D.RunCommandCreate RelationTuple.Collection s with
  | (s1, some _) => (s1, none)
  | (s1, none) =>
    match D.CreateOneUnique RelationTuple.Collection "tuple" s1 with
    | (s2, some err) => (s2, some (Error.Driver err))
    | (s2, none) => (s2, none)

/-- Method `RelationTupleRepository.QueryTuples`. -/
def QueryTuples {σ : Type} (D : Driver σ) (s : σ) (entity objectID relation : String) :
    Except Error (List RelationTuple) :=
  let filter : Document := [("entity", entity), ("object_id", objectID), ("relation", relation)]
  match D.Find RelationTuple.Collection filter ["userset_entity", "userset_relation"] s with
  | .error err => .error (Error.Driver err)
  | .ok cursor =>
    match D.All cursor with
    | .error err => .error (Error.Driver err)
    | .ok tuples => .ok tuples

/-- The document `Write` builds for one tuple. -/
def Write.doc (Tuple : RelationTuple → String) (tup : RelationTuple) : Document :=
  [("entity", tup.Entity), ("object_id", tup.ObjectID), ("relation", tup.Relation),
   ("userset_entity", tup.UsersetEntity), ("userset_object_id", tup.UsersetObjectID),
   ("userset_relation", tup.UsersetRelation), ("type", tup.Kind), ("tuple", Tuple tup)]

/-- The loop of `Write` appending one document per tuple to `docs`. -/
def Write.docs (Tuple : RelationTuple → String) : List RelationTuple → List Document → List Document
  | [], docs => docs
  | tup :: rest, docs => Write.docs Tuple rest (docs ++ [Write.doc Tuple tup])

/-- Method `RelationTupleRepository.Write`. -/
def Write {σ : Type} (D : Driver σ) (Tuple : RelationTuple → String) (s : σ)
    (tuples : List RelationTuple) : σ × Option Error :=
  let docs := Write.docs Tuple tuples []
  match D.InsertMany RelationTuple.Collection docs s with
  | (s1, some err) =>
    if IsDuplicateKeyError err then (s1, some Error.ErrUniqueConstraint)
    else (s1, some (Error.Driver err))
  | (s1, none) => (s1, none)

/-- The filter `Delete` builds for one tuple. -/
def Delete.filter (tuple : RelationTuple) : Document :=
  [("entity", tuple.Entity), ("object_id", tuple.ObjectID), ("relation", tuple.Relation),
   ("userset_entity", tuple.UsersetEntity), ("userset_object_id", tuple.UsersetObjectID),
   ("userset_relation", tuple.UsersetRelation)]

/-- Method `RelationTupleRepository.Delete`. -/
def Delete {σ : Type} (D : Driver σ) : σ → List RelationTuple → σ × Option Error
  | s, [] => (s, none)
  | s, tuple :: rest =>
    match D.DeleteOne EntityConfig.Collection (Delete.filter tuple) s with
    | (s1, some err) => (s1, some (Error.Driver err))
    | (s1, none) => Delete D s1 rest

/-! ### Reference model of the Mongo backend -/

/-- A collection: its documents in insertion order and the fields that carry a
unique index. -/
structure Coll where
  docs : List Document
  unique : List String

/-- A database: the collections by name. -/
abbrev DB := String → Option Coll

/-- The database with no collection. -/
def DB.empty : DB := fun _ => none

/-- A document matches an equality filter when every field of the filter is
present in the document with the same value. -/
def Matches (filter doc : Document) : Bool :=
  filter.all fun kv => doc.lookup kv.1 == some kv.2

/-- Order of field values in a sort: a missing field sorts before every string,
strings are compared lexicographically, character by character. -/
def valueLT : Option String → Option String → Bool
  | none, none => false
  | none, some _ => true
  | some _, none => false
  | some a, some b => decide (a.toList < b.toList)

/-- Ascending order on documents by the listed sort fields, first field most
significant. -/
def sortLE : List String → Document → Document → Bool
  | [], _, _ => true
  | k :: ks, a, b =>
    if valueLT (a.lookup k) (b.lookup k) then true
    else if valueLT (b.lookup k) (a.lookup k) then false
    else sortLE ks a b

/-- The `create` command: fails when the collection exists. -/
def mongod.RunCommandCreate (c : String) (db : DB) : DB × Option DriverError :=
  match db c with
  | some _ => (db, some DriverError.NamespaceExists)
  | none => (Function.update db c (some ⟨[], []⟩), none)

/-- Two documents of the list agree on field `k`. -/
def hasDuplicate (k : String) : List Document → Bool
  | [] => false
  | d :: ds => ds.any (fun e => e.lookup k == d.lookup k) || hasDuplicate k ds

/-- Creation of a unique index on field `k`: the collection is created when it
is missing, an existing index is left as it is, and the build fails when two
stored documents agree on `k`. -/
def mongod.CreateOneUnique (c k : String) (db : DB) : DB × Option DriverError :=
  let coll := (db c).getD ⟨[], []⟩
  if k ∈ coll.unique then (Function.update db c (some coll), none)
  else if hasDuplicate k coll.docs then (Function.update db c (some coll), some DriverError.DuplicateKey)
  else (Function.update db c (some ⟨coll.docs, coll.unique ++ [k]⟩), none)

/-- Query with an equality filter and an ascending sort; a missing collection
has no documents. -/
def mongod.Find (c : String) (filter : Document) (sort : List String) (db : DB) :
    Except DriverError (List Document) :=
  match db c with
  | none => .ok []
  | some coll =>
    .ok ((coll.docs.filter (Matches filter)).insertionSort (fun a b => sortLE sort a b = true))

/-- Decoding of a document into `entities.RelationTuple`, field by field under
the names `Write` stores them with; a missing field is the zero value. -/
def mongod.decode (d : Document) : RelationTuple :=
  { Entity := (d.lookup "entity").getD ""
    ObjectID := (d.lookup "object_id").getD ""
    Relation := (d.lookup "relation").getD ""
    UsersetEntity := (d.lookup "userset_entity").getD ""
    UsersetObjectID := (d.lookup "userset_object_id").getD ""
    UsersetRelation := (d.lookup "userset_relation").getD ""
    Kind := (d.lookup "type").getD "" }

/-- Decoding of all documents of a cursor. -/
def mongod.All (cursor : List Document) : Except DriverError (List RelationTuple) :=
  .ok (cursor.map mongod.decode)

/-- The document collides with a stored one on a field carrying a unique
index. -/
def collides (coll : Coll) (d : Document) : Bool :=
  coll.unique.any fun k => coll.docs.any fun e => e.lookup k == d.lookup k

/-- An ordered bulk insert: the documents are inserted one after the other and
the first one that violates a unique index stops the insert with a
duplicate-key error; the documents inserted before it stay. -/
def mongod.insertLoop : Coll → List Document → Coll × Option DriverError
  | coll, [] => (coll, none)
  | coll, d :: ds =>
    if collides coll d then (coll, some DriverError.DuplicateKey)
    else mongod.insertLoop ⟨coll.docs ++ [d], coll.unique⟩ ds

/-- The call `InsertMany`: an empty list of documents is refused with
`ErrEmptySlice`; the collection is created when it is missing. -/
def mongod.InsertMany (c : String) (docs : List Document) (db : DB) : DB × Option DriverError :=
  if docs = [] then (db, some DriverError.ErrEmptySlice)
  else
    let r := mongod.insertLoop ((db c).getD ⟨[], []⟩) docs
    (Function.update db c (some r.1), r.2)

/-- The call `DeleteOne`: removes the first stored document matching the
filter, if any. -/
def mongod.DeleteOne (c : String) (filter : Document) (db : DB) : DB × Option DriverError :=
  match db c with
  | none => (db, none)
  | some coll => (Function.update db c (some ⟨coll.docs.eraseP (Matches filter), coll.unique⟩), none)

/-- The reference backend. -/
def mongod : Driver DB where
  RunCommandCreate := mongod.RunCommandCreate
  CreateOneUnique := mongod.CreateOneUnique
  Find := mongod.Find
  All := mongod.All
  InsertMany := mongod.InsertMany
  DeleteOne := mongod.DeleteOne

end mongo

/-! ## Vocabulary of the statements -/

namespace ast

/-- The statement is an `*EntityStatement`. -/
def isEntity : Statement → Bool
  | .EntityStatement _ _ _ _ _ => true
  | _ => false

/-- The statement is an `*EntityStatement` whose name has the given literal. -/
def isEntityNamed (n : String) : Statement → Bool
  | .EntityStatement _ name _ _ _ => decide (name.Literal = n)
  | _ => false

/-- Number of entity statements of the schema named `user`. -/
def Schema.userEntities (sch : Schema) : Nat :=
  (sch.Statements.filter (isEntityNamed "user")).length

/-- An entity statement with the given name and nothing else. -/
def entityNamed (n : String) : Statement :=
  .EntityStatement ⟨"ENTITY", "entity"⟩ ⟨"IDENT", n⟩ [] [] ⟨"", ""⟩

/-- Concatenation of the strings, each followed by the separator. -/
def concatEach (sep : String) : List String → String
  | [] => ""
  | s :: rest => s ++ sep ++ concatEach sep rest

/-- Characters of an identifier value: letters, digits, `_` and `.`. -/
def identChar (c : Char) : Bool := c.isAlphanum || c == '_' || c == '.'

/-- A non-empty string over letters, digits, `_` and `.`. -/
def validIdent (s : String) : Bool := !s.toList.isEmpty && s.toList.all identChar

/-- Expression trees of the parser's shape: identifiers with a valid value,
`not` applied to a valid identifier value, and `and` / `or` with both operands
present and well formed. -/
def wellFormed : Expression → Bool
  | .nil => false
  | .Identifier _ value => validIdent value
  | .PrefixExpression _ operator value => decide (operator = "not") && validIdent value
  | .InfixExpression _ left operator right =>
    (decide (operator = "and") || decide (operator = "or")) && wellFormed left && wellFormed right

/-- The expression with every `Token` field replaced by the empty token: its
shape, operators and identifier values. -/
def stripTokens : Expression → Expression
  | .nil => .nil
  | .Identifier _ value => .Identifier ⟨"", ""⟩ value
  | .PrefixExpression _ operator value => .PrefixExpression ⟨"", ""⟩ operator value
  | .InfixExpression _ left operator right =>
    .InfixExpression ⟨"", ""⟩ (stripTokens left) operator (stripTokens right)

/-- The characters `String` writes for an expression without nil operands. -/
def chars : Expression → List Char
  | .nil => []
  | .Identifier _ value => value.toList
  | .PrefixExpression _ operator value => operator.toList ++ ' ' :: value.toList
  | .InfixExpression _ left operator right =>
    '(' :: (chars left ++ ' ' :: (operator.toList ++ ' ' :: (chars right ++ [')'])))

/-- What can follow the text of an operand inside a printed expression:
nothing (the text ends), a closing parenthesis, or an operator between blanks
followed by a well-formed right operand and its closing parenthesis. -/
def Follows (r : List Char) : Prop :=
  r = [] ∨ (∃ t, r = ')' :: t) ∨
    ∃ op R t, (op = "and" ∨ op = "or") ∧ wellFormed R = true ∧
      r = ' ' :: (op.toList ++ ' ' :: (chars R ++ ')' :: t))

/-- The text does not continue an identifier: it is empty or starts with a
character that is not an identifier character. -/
def Stops (r : List Char) : Prop := ∀ c t, r = c :: t → identChar c = false

/-- The expression `(viewer or (not banned and owner))`. -/
def sampleExpression : Expression :=
  .InfixExpression ⟨"OR", "or"⟩ (.Identifier ⟨"IDENT", "viewer"⟩ "viewer") "or"
    (.InfixExpression ⟨"AND", "and"⟩ (.PrefixExpression ⟨"NOT", "not"⟩ "not" "banned") "and"
      (.Identifier ⟨"IDENT", "owner"⟩ "owner"))

/-- The expression `(viewer or (not banned and owner))` built with other
tokens. -/
def sampleExpressionOtherTokens : Expression :=
  .InfixExpression ⟨"", "OR"⟩ (.Identifier ⟨"", "x"⟩ "viewer") "or"
    (.InfixExpression ⟨"", "AND"⟩ (.PrefixExpression ⟨"", "!"⟩ "not" "banned") "and"
      (.Identifier ⟨"", "y"⟩ "owner"))

/-- The texts of the statements in stored order; `none` when printing one of
them panics. -/
def printEach : List Statement → Option (List String)
  | [] => some []
  | st :: rest =>
    match st.String with
    | none => none
    | some x =>
      match printEach rest with
      | none => none
      | some xs => some (x :: xs)

/-- The option literal wrapped in back-ticks when it is not empty. -/
def optionText (option : Token) : String :=
  if option.Literal = "" then "" else "`" ++ option.Literal ++ "`"

/-- An infix expression whose left operand is missing. -/
def infixWithoutLeft : Expression :=
  .InfixExpression ⟨"AND", "and"⟩ .nil "and" (.Identifier ⟨"IDENT", "viewer"⟩ "viewer")

end ast

namespace mongo

/-- The tuple `document:1#owner@user:alice`. -/
def alice : RelationTuple := ⟨"document", "1", "owner", "user", "alice", "", "USER"⟩

/-- The tuple `document:1#owner@user:bob`. -/
def bob : RelationTuple := ⟨"document", "1", "owner", "user", "bob", "", "USER"⟩

/-- The backend after `Migrate` on a database with no collection. -/
def migrated : DB := (Migrate mongod DB.empty).1

/-- A backend whose relation-tuple collection exists without any index. -/
def unindexed : DB := Function.update DB.empty RelationTuple.Collection (some ⟨[], []⟩)

/-- Ascending order by the pair (userset_entity, userset_relation), the pairs
compared lexicographically. -/
def usersetLE (a b : RelationTuple) : Prop :=
  a.UsersetEntity < b.UsersetEntity ∨
    (a.UsersetEntity = b.UsersetEntity ∧ a.UsersetRelation ≤ b.UsersetRelation)

/-- The tuple `document:1#owner@group:eng#member`. -/
def engMember : RelationTuple := ⟨"document", "1", "owner", "group", "eng", "member", "USERSET"⟩

/-- The tuple `document:1#owner@group:ops#admin`. -/
def opsAdmin : RelationTuple := ⟨"document", "1", "owner", "group", "ops", "admin", "USERSET"⟩

/-- The tuple `document:2#owner@user:alice`. -/
def alice2 : RelationTuple := ⟨"document", "2", "owner", "user", "alice", "", "USER"⟩

/-- The documents of the relation-tuple collection; none when it is missing. -/
def DB.tupleDocs (db : DB) : List Document :=
  ((db RelationTuple.Collection).getD ⟨[], []⟩).docs

/-- The fields of the relation-tuple collection that carry a unique index. -/
def DB.tupleIndexes (db : DB) : List String :=
  ((db RelationTuple.Collection).getD ⟨[], []⟩).unique

end mongo

namespace ast

/-- The expression is an `*InfixExpression`. -/
def isInfixNode : Expression → Bool
  | .InfixExpression _ _ _ _ => true
  | _ => false

/-- Number of `InfixExpression` nodes of the tree. -/
def infixNodes : Expression → Nat
  | .InfixExpression _ left _ right => infixNodes left + infixNodes right + 1
  | _ => 0

/-- The tree is built from `Identifier`, `PrefixExpression` and
`InfixExpression` nodes only: no operand is the nil interface. -/
def noNil : Expression → Bool
  | .nil => false
  | .Identifier _ _ => true
  | .PrefixExpression _ _ _ => true
  | .InfixExpression _ left _ right => noNil left && noNil right

/-- The string contains a parenthesis. -/
def hasParen (s : String) : Bool := s.toList.contains '(' || s.toList.contains ')'

/-- No identifier value of the tree (the value of an `Identifier` or of a
`PrefixExpression`) contains a parenthesis. -/
def valuesParenFree : Expression → Bool
  | .nil => true
  | .Identifier _ value => !hasParen value
  | .PrefixExpression _ _ value => !hasParen value
  | .InfixExpression _ left _ right => valuesParenFree left && valuesParenFree right

/-- No operator string of the tree contains a parenthesis. -/
def operatorsParenFree : Expression → Bool
  | .nil => true
  | .Identifier _ _ => true
  | .PrefixExpression _ operator _ => !hasParen operator
  | .InfixExpression _ left operator right =>
    !hasParen operator && operatorsParenFree left && operatorsParenFree right

/-- Number of occurrences of a character in a string. -/
def countChar (c : Char) (s : String) : Nat := s.toList.count c

/-- An infix expression over two identifiers whose operator string is `(`. -/
def parenOperator : Expression :=
  .InfixExpression ⟨"ILLEGAL", "("⟩ (.Identifier ⟨"IDENT", "a"⟩ "a") "("
    (.Identifier ⟨"IDENT", "b"⟩ "b")

end ast

namespace mongo

/-- A driver call that acts on the backend state. -/
inductive Call where
  | RunCommandCreate (c : String)
  | CreateOneUnique (c k : String)
  | InsertMany (c : String) (docs : List Document)
  | DeleteOne (c : String) (filter : Document)
deriving DecidableEq, Repr

/-- The driver `D` with a log of the calls made on the backend state, in the
order they are made. -/
def traced {σ : Type} (D : Driver σ) : Driver (σ × List Call) where
  RunCommandCreate := fun c s =>
    (((D.RunCommandCreate c s.1).1, s.2 ++ [Call.RunCommandCreate c]), (D.RunCommandCreate c s.1).2)
  CreateOneUnique := fun c k s =>
    (((D.CreateOneUnique c k s.1).1, s.2 ++ [Call.CreateOneUnique c k]),
      (D.CreateOneUnique c k s.1).2)
  Find := fun c filter sort s => D.Find c filter sort s.1
  All := D.All
  InsertMany := fun c docs s =>
    (((D.InsertMany c docs s.1).1, s.2 ++ [Call.InsertMany c docs]), (D.InsertMany c docs s.1).2)
  DeleteOne := fun c filter s =>
    (((D.DeleteOne c filter s.1).1, s.2 ++ [Call.DeleteOne c filter]), (D.DeleteOne c filter s.1).2)

/-- A backend on which every call fails with the given error and changes
nothing. -/
def failing (e : DriverError) : Driver DB where
  RunCommandCreate := fun _ db => (db, some e)
  CreateOneUnique := fun _ _ db => (db, some e)
  Find := fun _ _ _ _ => .error e
  All := fun _ => .error e
  InsertMany := fun _ _ db => (db, some e)
  DeleteOne := fun _ _ db => (db, some e)

end mongo

namespace mongo

/-- The reference backend with faults in the creation of an index: when `fault`
gives an error for the current state, the creation fails with that error and
changes nothing; every other call is the one of `mongod`. -/
def mongodWithIndexFault (fault : DB → Option DriverError) : Driver DB where
  RunCommandCreate := mongod.RunCommandCreate
  CreateOneUnique := fun c k db =>
    match fault db with
    | some e => (db, some e)
    | none => mongod.CreateOneUnique c k db
  Find := mongod.Find
  All := mongod.All
  InsertMany := mongod.InsertMany
  DeleteOne := mongod.DeleteOne

/-- The reference backend on which every creation of an index fails as
unavailable. -/
def indexUnavailable : Driver DB :=
  mongodWithIndexFault fun _ => some (DriverError.Other "unavailable")

/-- The database after a successful `create` of the relation-tuple collection. -/
def DB.created (db : DB) : DB :=
  Function.update db RelationTuple.Collection (some ⟨[], []⟩)

end mongo

/-! ## Theorems -/

namespace ast

/-! ### Schema validation -/

theorem Validate.loop_eq_nil_iff (sts : List Statement) (h : ∀ st ∈ sts, isEntity st = true) :
    Validate.loop sts = some none ↔ ∃ st ∈ sts, isEntityNamed "user" st = true := by
  induction sts with
  | nil => simp [Validate.loop]
  | cons st rest ih =>
    have hst := h st (List.mem_cons_self _ _)
    have hrest : ∀ s ∈ rest, isEntity s = true := fun s hs => h s (List.mem_cons_of_mem _ hs)
    cases st with
    | EntityStatement tok name rels acts opt =>
      by_cases hn : name.Literal = "user"
      · simp [Validate.loop, USER, hn, isEntityNamed]
      · simp [Validate.loop, USER, hn, isEntityNamed, ih hrest]
    | _ => simp [isEntity] at hst

theorem Validate.loop_cases (sts : List Statement) (h : ∀ st ∈ sts, isEntity st = true) :
    Validate.loop sts = some none ∨ Validate.loop sts = some (some Error.UserEntityRequiredErr) := by
  induction sts with
  | nil => simp [Validate.loop]
  | cons st rest ih =>
    have hst := h st (List.mem_cons_self _ _)
    have hrest : ∀ s ∈ rest, isEntity s = true := fun s hs => h s (List.mem_cons_of_mem _ hs)
    cases st with
    | EntityStatement tok name rels acts opt =>
      by_cases hn : name.Literal = USER
      · simp [Validate.loop, hn]
      · simpa [Validate.loop, hn] using ih hrest
    | _ => simp [isEntity] at hst

/-- C1: for a schema whose statements are all entity statements, `Validate`
returns nil exactly when some entity statement is named `user`, and returns
`UserEntityRequiredErr` in every other case, the empty schema included. -/
theorem Validate_sound (sch : Schema) (h : ∀ st ∈ sch.Statements, isEntity st = true) :
    (sch.Validate = some none ↔ ∃ st ∈ sch.Statements, isEntityNamed "user" st = true) ∧
    ((¬ ∃ st ∈ sch.Statements, isEntityNamed "user" st = true) →
      sch.Validate = some (some Error.UserEntityRequiredErr)) ∧
    (Schema.mk []).Validate = some (some Error.UserEntityRequiredErr) := by
  refine ⟨Validate.loop_eq_nil_iff _ h, fun hno => ?_, rfl⟩
  rcases Validate.loop_cases _ h with h1 | h1
  · exact absurd ((Validate.loop_eq_nil_iff _ h).1 h1) hno
  · exact h1

theorem Validate_sound_witness :
    ((Schema.mk [entityNamed "document", entityNamed "user"]).Validate = some none ↔
      ∃ st ∈ (Schema.mk [entityNamed "document", entityNamed "user"]).Statements,
        isEntityNamed "user" st = true) ∧
    ((¬ ∃ st ∈ (Schema.mk [entityNamed "document", entityNamed "user"]).Statements,
        isEntityNamed "user" st = true) →
      (Schema.mk [entityNamed "document", entityNamed "user"]).Validate =
        some (some Error.UserEntityRequiredErr)) ∧
    (Schema.mk []).Validate = some (some Error.UserEntityRequiredErr) :=
  Validate_sound (Schema.mk [entityNamed "document", entityNamed "user"]) (by
    intro st hst
    simp only [List.mem_cons, List.mem_singleton, List.not_mem_nil, or_false] at hst
    rcases hst with rfl | rfl <;> rfl)


theorem exists_user_iff_count (sts : List Statement) :
    (∃ st ∈ sts, isEntityNamed "user" st = true) ↔
      1 ≤ (sts.filter (isEntityNamed "user")).length := by
  rw [← List.countP_eq_length_filter, Nat.succ_le_iff, List.countP_pos_iff]

/-- C9 (as the claim states it, refuted): a schema with two entity statements
named `user` is accepted by `Validate`. -/
theorem Validate_accepts_two_user_entities :
    (∀ st ∈ (Schema.mk [entityNamed "user", entityNamed "user"]).Statements, isEntity st = true) ∧
    (Schema.mk [entityNamed "user", entityNamed "user"]).userEntities = 2 ∧
    (Schema.mk [entityNamed "user", entityNamed "user"]).Validate = some none := by
  refine ⟨?_, by decide, by decide⟩
  intro st hst
  simp only [List.mem_cons, List.mem_singleton, List.not_mem_nil, or_false] at hst
  rcases hst with rfl | rfl <;> rfl

/-- C9 (amended): for a schema of entity statements, `Validate` accepts exactly
when at least one entity statement is named `user`; in particular a schema with
two or more such statements is accepted. -/
theorem Validate_at_least_one_user (sch : Schema)
    (h : ∀ st ∈ sch.Statements, isEntity st = true) :
    (sch.Validate = some none ↔ 1 ≤ sch.userEntities) ∧
    (2 ≤ sch.userEntities → sch.Validate = some none) := by
  have key : sch.Validate = some none ↔ 1 ≤ sch.userEntities :=
    (Validate.loop_eq_nil_iff _ h).trans (exists_user_iff_count _)
  exact ⟨key, fun h2 => key.2 (by omega)⟩

theorem Validate_at_least_one_user_witness :
    ((Schema.mk [entityNamed "user", entityNamed "user"]).Validate = some none ↔
      1 ≤ (Schema.mk [entityNamed "user", entityNamed "user"]).userEntities) ∧
    (2 ≤ (Schema.mk [entityNamed "user", entityNamed "user"]).userEntities →
      (Schema.mk [entityNamed "user", entityNamed "user"]).Validate = some none) :=
  Validate_at_least_one_user (Schema.mk [entityNamed "user", entityNamed "user"]) (by
    intro st hst
    simp only [List.mem_cons, List.mem_singleton, List.not_mem_nil, or_false] at hst
    rcases hst with rfl | rfl <;> rfl)

/-! ### Printing of statements -/

/-- C6 (the code at the failing input): `String` on an infix expression whose
left or right operand is nil panics, for every token and operator, while the
action and expression statements print when their child is nil. -/
theorem InfixExpression_String_panics_on_nil :
    (∀ tok op right, (Expression.InfixExpression tok .nil op right).String = none) ∧
    (∀ tok op left, (Expression.InfixExpression tok left op .nil).String = none) ∧
    infixWithoutLeft.String = none ∧
    (Statement.ExpressionStatement infixWithoutLeft).String = none ∧
    (Statement.ActionStatement ⟨"ACTION", "action"⟩ ⟨"IDENT", "view"⟩ .nil).String =
      some "\taction view = " ∧
    (Statement.ExpressionStatement .nil).String = some "" := by
  refine ⟨fun _ _ _ => rfl, fun tok op left => ?_, rfl, by decide, by decide, by decide⟩
  cases h : left.String <;> simp [Expression.String, h]

theorem writeEach_eq (xs : List Statement) (sep sb : String) :
    Statement.writeEach xs sep sb =
      (printEach xs).bind fun ss => some (sb ++ concatEach sep ss) := by
  induction xs generalizing sb with
  | nil => simp [Statement.writeEach, concatEach, printEach]
  | cons x rest ih =>
    rw [Statement.writeEach, printEach]
    cases hx : x.String with
    | none => simp
    | some s =>
      simp only [ih, WriteString]
      cases hr : printEach rest with
      | none => simp
      | some ss => simp [concatEach, String.append_assoc]

/-- C10: the text of an entity statement is `entity <name> {` and a newline,
the text of each relation statement in stored order each followed by a newline,
one newline, the text of each action statement in stored order each followed by
a newline, `} `, the option literal in back-ticks when it is not empty, and a
newline. It panics exactly when printing one of the child statements does. -/
theorem EntityStatement_String_eq (tok name : Token) (rels acts : List Statement) (opt : Token) :
    (Statement.EntityStatement tok name rels acts opt).String =
      (printEach rels).bind fun rs =>
      (printEach acts).bind fun as =>
        some ("entity " ++ name.Literal ++ " \x7b\n" ++ concatEach "\n" rs ++ "\n" ++
          concatEach "\n" as ++ "\x7d " ++ optionText opt ++ "\n") := by
  rw [Statement.String]
  simp only [writeEach_eq, WriteString]
  cases hr : printEach rels with
  | none => simp
  | some rs =>
    cases ha : printEach acts with
    | none => simp
    | some as =>
      by_cases ho : opt.Literal = "" <;>
        simp only [Option.some_bind, optionText, ho, if_false, if_true, ne_eq, not_true_eq_false,
          not_false_eq_true, Option.some.injEq] <;>
        apply String.ext <;>
        simp [String.data_append]

end ast

namespace mongo

/-! ### Delete and Migrate -/

theorem collections_ne : EntityConfig.Collection ≠ RelationTuple.Collection := by decide

theorem DeleteOne_snd (c : String) (f : Document) (db : DB) :
    (mongod.DeleteOne c f db).2 = none := by
  unfold mongod.DeleteOne
  cases db c <;> rfl

theorem DeleteOne_other (c c' : String) (f : Document) (db : DB) (h : c' ≠ c) :
    (mongod.DeleteOne c f db).1 c' = db c' := by
  unfold mongod.DeleteOne
  cases db c with
  | none => rfl
  | some coll => exact Function.update_noteq h _ _

theorem Delete_mongod (db : DB) (ts : List RelationTuple) :
    (Delete mongod db ts).2 = none ∧
    (Delete mongod db ts).1 RelationTuple.Collection = db RelationTuple.Collection := by
  induction ts generalizing db with
  | nil => simp [Delete]
  | cons t rest ih =>
    rw [Delete]
    have hD : Driver.DeleteOne mongod = mongod.DeleteOne := rfl
    rw [hD]
    have h1 := DeleteOne_snd EntityConfig.Collection (Delete.filter t) db
    have h2 := DeleteOne_other EntityConfig.Collection RelationTuple.Collection (Delete.filter t) db
      collections_ne.symm
    rcases hr : mongod.DeleteOne EntityConfig.Collection (Delete.filter t) db with ⟨s1, e⟩
    rw [hr] at h1 h2
    simp only at h1 h2
    subst h1
    simp only
    exact ⟨(ih s1).1, (ih s1).2.trans h2⟩

/-- C2 (the code at the failing input): `Delete` issues its `DeleteOne` calls on
the collection `entity_configs`; on the reference backend it returns nil and
leaves the collection `relation_tuples` as it was, and after writing
`document:1#owner@user:alice` and deleting it `QueryTuples` still returns it. -/
theorem Delete_leaves_relation_tuples :
    (∀ (db : DB) (ts : List RelationTuple),
      (Delete mongod db ts).2 = none ∧
      (Delete mongod db ts).1 RelationTuple.Collection = db RelationTuple.Collection) ∧
    (Write mongod RelationTuple.Tuple migrated [alice]).2 = none ∧
    QueryTuples mongod (Write mongod RelationTuple.Tuple migrated [alice]).1 "document" "1" "owner"
      = .ok [alice] ∧
    (Delete mongod (Write mongod RelationTuple.Tuple migrated [alice]).1 [alice]).2 = none ∧
    QueryTuples mongod (Delete mongod (Write mongod RelationTuple.Tuple migrated [alice]).1 [alice]).1
      "document" "1" "owner" = .ok [alice] :=
  ⟨Delete_mongod, rfl, rfl, rfl, rfl⟩


theorem Migrate_mongod_absent (db : DB) (h : db RelationTuple.Collection = none) :
    Migrate mongod db =
      (Function.update db RelationTuple.Collection (some ⟨[], ["tuple"]⟩), none) := by
  have hR : Driver.RunCommandCreate mongod = mongod.RunCommandCreate := rfl
  have hC : Driver.CreateOneUnique mongod = mongod.CreateOneUnique := rfl
  simp [Migrate, hR, hC, mongod.RunCommandCreate, mongod.CreateOneUnique, h, hasDuplicate]

theorem Migrate_mongod_present (db : DB) (c : Coll) (h : db RelationTuple.Collection = some c) :
    Migrate mongod db = (db, none) := by
  have hR : Driver.RunCommandCreate mongod = mongod.RunCommandCreate := rfl
  simp [Migrate, hR, mongod.RunCommandCreate, h]

/-- C8 (as the claim states it, refuted): on a backend whose relation-tuple
collection exists without the index, two calls of `Migrate` return nil and the
collection still has no unique index on `tuple`; and on an empty backend whose
index creation fails, the first call returns that error, the second returns
nil, and the collection exists without the index. -/
theorem Migrate_twice_without_index :
    (Migrate mongod unindexed).2 = none ∧
    (Migrate mongod (Migrate mongod unindexed).1).2 = none ∧
    DB.tupleIndexes (Migrate mongod (Migrate mongod unindexed).1).1 = [] ∧
    (Migrate indexUnavailable DB.empty).2 =
      some (Error.Driver (DriverError.Other "unavailable")) ∧
    (Migrate indexUnavailable (Migrate indexUnavailable DB.empty).1).2 = none ∧
    DB.tupleIndexes (Migrate indexUnavailable (Migrate indexUnavailable DB.empty).1).1 = [] :=
  ⟨rfl, rfl, rfl, rfl, rfl, rfl⟩

/-- On the reference backend without faults a second `Migrate` returns the same
result as the first and leaves the state of a single call; after it the
relation-tuple collection exists; it is created with the unique index on
`tuple` when it was missing, and a collection that existed is left as it was. -/
theorem Migrate_mongod_idempotent (db : DB) :
    Migrate mongod (Migrate mongod db).1 = Migrate mongod db ∧
    (Migrate mongod db).2 = none ∧
    (Migrate mongod (Migrate mongod db).1).2 = none ∧
    (∃ c, (Migrate mongod db).1 RelationTuple.Collection = some c) ∧
    (db RelationTuple.Collection = none →
      DB.tupleIndexes (Migrate mongod db).1 = ["tuple"] ∧ DB.tupleDocs (Migrate mongod db).1 = []) ∧
    (∀ c, db RelationTuple.Collection = some c → (Migrate mongod db).1 = db) := by
  cases h : db RelationTuple.Collection with
  | none =>
    have h1 := Migrate_mongod_absent db h
    have h2 := Migrate_mongod_present
      (Function.update db RelationTuple.Collection (some ⟨[], ["tuple"]⟩)) ⟨[], ["tuple"]⟩
      (Function.update_same _ _ _)
    rw [h1]
    simp only [h2]
    simp [DB.tupleIndexes, DB.tupleDocs]
  | some c =>
    have h1 := Migrate_mongod_present db c h
    rw [h1]
    simp only [h1]
    simp [h]

theorem Migrate_mongod_idempotent_empty :
    Migrate mongod (Migrate mongod DB.empty).1 = Migrate mongod DB.empty ∧
    (Migrate mongod DB.empty).2 = none ∧
    (Migrate mongod (Migrate mongod DB.empty).1).2 = none ∧
    (∃ c, (Migrate mongod DB.empty).1 RelationTuple.Collection = some c) ∧
    (DB.empty RelationTuple.Collection = none →
      DB.tupleIndexes (Migrate mongod DB.empty).1 = ["tuple"] ∧
      DB.tupleDocs (Migrate mongod DB.empty).1 = []) ∧
    (∀ c, DB.empty RelationTuple.Collection = some c → (Migrate mongod DB.empty).1 = DB.empty) :=
  Migrate_mongod_idempotent DB.empty


/-! ### Write -/

theorem Write_docs_eq (T : RelationTuple → String) (ts : List RelationTuple) (acc : List Document) :
    Write.docs T ts acc = acc ++ ts.map (Write.doc T) := by
  induction ts generalizing acc with
  | nil => simp [Write.docs]
  | cons t rest ih => simp [Write.docs, ih]

theorem insertLoop_spec (ds : List Document) (coll : Coll) :
    ∃ k, k ≤ ds.length ∧
      (mongod.insertLoop coll ds).1 = ⟨coll.docs ++ ds.take k, coll.unique⟩ ∧
      ((mongod.insertLoop coll ds).2 = none → k = ds.length) ∧
      (∀ e, (mongod.insertLoop coll ds).2 = some e →
        e = DriverError.DuplicateKey ∧
        ∃ d, ds.get? k = some d ∧ collides ⟨coll.docs ++ ds.take k, coll.unique⟩ d = true) ∧
      (∀ j d, j < k → ds.get? j = some d →
        collides ⟨coll.docs ++ ds.take j, coll.unique⟩ d = false) := by
  induction ds generalizing coll with
  | nil => exact ⟨0, by simp [mongod.insertLoop]⟩
  | cons d rest ih =>
    by_cases hc : collides coll d = true
    · exact ⟨0, by simp [mongod.insertLoop, hc]⟩
    · obtain ⟨k, hk, h1, h2, h3, h4⟩ := ih ⟨coll.docs ++ [d], coll.unique⟩
      refine ⟨k + 1, by simpa using hk, ?_, ?_, ?_, ?_⟩
      · simpa [mongod.insertLoop, hc] using h1
      · simpa [mongod.insertLoop, hc] using h2
      · simpa [mongod.insertLoop, hc] using h3
      · intro j d' hj hd'
        cases j with
        | zero =>
          simp only [List.get?_cons_zero, Option.some.injEq] at hd'
          subst hd'
          simpa using hc
        | succ j =>
          have := h4 j d' (by omega) (by simpa using hd')
          simpa using this

theorem insertLoop_duplicate (k : String) (v : Option String) (ds : List Document) (coll : Coll)
    (hk : k ∈ coll.unique) (hs : ∃ e ∈ coll.docs, e.lookup k = v)
    (hd : ∃ d ∈ ds, d.lookup k = v) :
    (mongod.insertLoop coll ds).2 = some DriverError.DuplicateKey := by
  induction ds generalizing coll with
  | nil => simp at hd
  | cons d rest ih =>
    by_cases hc : collides coll d = true
    · simp [mongod.insertLoop, hc]
    · have hne : d.lookup k ≠ v := by
        intro hv
        obtain ⟨e, he, hev⟩ := hs
        apply hc
        simp only [collides, List.any_eq_true, beq_iff_eq]
        exact ⟨k, hk, e, he, hev.trans hv.symm⟩
      obtain ⟨d', hd', hv'⟩ := hd
      have hmem : d' ∈ rest := by
        rcases List.mem_cons.1 hd' with rfl | h
        · exact absurd hv' hne
        · exact h
      obtain ⟨e, he, hev⟩ := hs
      have := ih ⟨coll.docs ++ [d], coll.unique⟩ hk ⟨e, by simp [he], hev⟩ ⟨d', hmem, hv'⟩
      simpa [mongod.insertLoop, hc] using this

theorem doc_lookup_tuple (T : RelationTuple → String) (t : RelationTuple) :
    (Write.doc T t).lookup "tuple" = some (T t) := rfl

theorem Write_mongod (T : RelationTuple → String) (db : DB) (ts : List RelationTuple) :
    Write mongod T db ts =
      if ts = [] then (db, some (Error.Driver DriverError.ErrEmptySlice))
      else
        (Function.update db RelationTuple.Collection
            (some (mongod.insertLoop ((db RelationTuple.Collection).getD ⟨[], []⟩)
              (ts.map (Write.doc T))).1),
          match (mongod.insertLoop ((db RelationTuple.Collection).getD ⟨[], []⟩)
              (ts.map (Write.doc T))).2 with
          | some err =>
            if IsDuplicateKeyError err then some Error.ErrUniqueConstraint
            else some (Error.Driver err)
          | none => none) := by
  have hI : Driver.InsertMany mongod = mongod.InsertMany := rfl
  simp only [Write, hI, mongod.InsertMany, Write_docs_eq, List.nil_append, List.map_eq_nil_iff]
  by_cases hts : ts = []
  · simp [hts, IsDuplicateKeyError]
  · simp only [hts, if_false]
    cases h : (mongod.insertLoop ((db RelationTuple.Collection).getD ⟨[], []⟩)
        (ts.map (Write.doc T))).2 with
    | none => rfl
    | some err => cases hd : IsDuplicateKeyError err <;> simp [hd]


/-- C3 (as the claim states it, refuted): on the migrated backend, writing the
batch `[alice, alice]` returns `ErrUniqueConstraint` and leaves the first tuple
in the collection that was empty before; writing `[bob, alice]` when `alice` is
stored returns `ErrUniqueConstraint` and leaves `bob` inserted. -/
theorem Write_error_keeps_earlier_tuples :
    DB.tupleDocs migrated = [] ∧
    (Write mongod RelationTuple.Tuple migrated [alice, alice]).2 = some Error.ErrUniqueConstraint ∧
    DB.tupleDocs (Write mongod RelationTuple.Tuple migrated [alice, alice]).1 =
      [Write.doc RelationTuple.Tuple alice] ∧
    (Write mongod RelationTuple.Tuple (Write mongod RelationTuple.Tuple migrated [alice]).1
      [bob, alice]).2 = some Error.ErrUniqueConstraint ∧
    DB.tupleDocs (Write mongod RelationTuple.Tuple
      (Write mongod RelationTuple.Tuple migrated [alice]).1 [bob, alice]).1 =
      [Write.doc RelationTuple.Tuple alice, Write.doc RelationTuple.Tuple bob] :=
  ⟨rfl, rfl, rfl, rfl, rfl⟩

/-- C3 (amended): on the reference backend `Write` inserts the batch in order
and stops at the first tuple that violates a unique index. After the call the
relation-tuple collection holds what it held before followed by the documents
of the first `k` tuples of the batch, its indexes and the other collections are
unchanged; none of these `k` tuples collides with the collection as extended by
the tuples before it; `k` is the whole batch when `Write` returns nil; when it
returns `ErrUniqueConstraint` the tuple at position `k` collides with the
collection as extended so far, so it is the first violating tuple, and neither
it nor a later tuple is inserted; on any other error the backend is
unchanged. -/
theorem Write_inserts_prefix (T : RelationTuple → String) (db : DB) (ts : List RelationTuple) :
    ∃ k, k ≤ ts.length ∧
      DB.tupleDocs (Write mongod T db ts).1 =
        DB.tupleDocs db ++ (ts.take k).map (Write.doc T) ∧
      DB.tupleIndexes (Write mongod T db ts).1 = DB.tupleIndexes db ∧
      (∀ c, c ≠ RelationTuple.Collection → (Write mongod T db ts).1 c = db c) ∧
      ((Write mongod T db ts).2 = none → k = ts.length) ∧
      ((Write mongod T db ts).2 = some Error.ErrUniqueConstraint →
        ∃ t, ts.get? k = some t ∧
          collides ⟨DB.tupleDocs db ++ (ts.take k).map (Write.doc T), DB.tupleIndexes db⟩
            (Write.doc T t) = true) ∧
      (∀ e, (Write mongod T db ts).2 = some e → e ≠ Error.ErrUniqueConstraint →
        (Write mongod T db ts).1 = db) ∧
      (∀ j t, j < k → ts.get? j = some t →
        collides ⟨DB.tupleDocs db ++ (ts.take j).map (Write.doc T), DB.tupleIndexes db⟩
          (Write.doc T t) = false) := by
  rw [Write_mongod]
  by_cases hts : ts = []
  · subst hts
    exact ⟨0, by simp⟩
  · simp only [hts, if_false]
    obtain ⟨k, hk, h1, h2, h3, h4⟩ :=
      insertLoop_spec (ts.map (Write.doc T)) ((db RelationTuple.Collection).getD ⟨[], []⟩)
    refine ⟨k, by simpa using hk, ?_, ?_, ?_, ?_, ?_, ?_, ?_⟩
    · simp [DB.tupleDocs, h1, List.map_take]
    · simp [DB.tupleIndexes, h1]
    · intro c hc
      exact Function.update_noteq hc _ _
    · intro hn
      cases h : (mongod.insertLoop ((db RelationTuple.Collection).getD ⟨[], []⟩)
          (ts.map (Write.doc T))).2 with
      | none => simpa using h2 h
      | some err =>
        rw [h] at hn
        cases hd : IsDuplicateKeyError err <;> simp [hd] at hn
    · intro he
      cases h : (mongod.insertLoop ((db RelationTuple.Collection).getD ⟨[], []⟩)
          (ts.map (Write.doc T))).2 with
      | none => rw [h] at he; simp at he
      | some err =>
        obtain ⟨-, d, hd, hcol⟩ := h3 err h
        rw [List.get?_eq_getElem?, List.getElem?_map] at hd
        cases ht : ts[k]? with
        | none => simp [ht] at hd
        | some t =>
          simp only [ht, Option.map_some', Option.some.injEq] at hd
          subst hd
          refine ⟨t, by simp [ht], ?_⟩
          simpa [DB.tupleDocs, DB.tupleIndexes, List.map_take] using hcol
    · intro e he hne
      cases h : (mongod.insertLoop ((db RelationTuple.Collection).getD ⟨[], []⟩)
          (ts.map (Write.doc T))).2 with
      | none => rw [h] at he; simp at he
      | some err =>
        obtain ⟨herr, -⟩ := h3 err h
        subst herr
        rw [h] at he
        simp [IsDuplicateKeyError] at he
        exact absurd he.symm hne
    · intro j t hj ht
      have := h4 j (Write.doc T t) hj (by
        rw [List.get?_eq_getElem?] at ht ⊢
        rw [List.getElem?_map, ht]
        rfl)
      simpa [DB.tupleDocs, DB.tupleIndexes, List.map_take] using this


theorem Write_error_of_driver {σ : Type} (D : Driver σ) (T : RelationTuple → String) (s : σ)
    (ts : List RelationTuple) :
    (Write D T s ts).1 = (D.InsertMany RelationTuple.Collection (ts.map (Write.doc T)) s).1 ∧
    (Write D T s ts).2 =
      match (D.InsertMany RelationTuple.Collection (ts.map (Write.doc T)) s).2 with
      | none => none
      | some e => if IsDuplicateKeyError e then some Error.ErrUniqueConstraint
                  else some (Error.Driver e) := by
  simp only [Write, Write_docs_eq, List.nil_append]
  rcases D.InsertMany RelationTuple.Collection (ts.map (Write.doc T)) s with ⟨s1, _ | e⟩
  · exact ⟨rfl, rfl⟩
  · cases h : IsDuplicateKeyError e <;> simp [h]

theorem Write_stored_duplicate (T : RelationTuple → String) (db : DB) (c : Coll)
    (hc : db RelationTuple.Collection = some c) (hu : "tuple" ∈ c.unique)
    (ts : List RelationTuple) (t : RelationTuple) (ht : t ∈ ts)
    (hs : ∃ d ∈ c.docs, d.lookup "tuple" = some (T t)) :
    (Write mongod T db ts).2 = some Error.ErrUniqueConstraint := by
  have hne : ts ≠ [] := List.ne_nil_of_mem ht
  have hdup := insertLoop_duplicate "tuple" (some (T t)) (ts.map (Write.doc T)) c hu hs
    ⟨Write.doc T t, List.mem_map_of_mem _ ht, doc_lookup_tuple T t⟩
  rw [Write_mongod]
  simp [hne, hc, hdup, IsDuplicateKeyError]

theorem Write_fresh_single (T : RelationTuple → String) (db : DB) (c : Coll)
    (hc : db RelationTuple.Collection = some c) (hu : c.unique = ["tuple"])
    (t : RelationTuple) (hfresh : ∀ d ∈ c.docs, d.lookup "tuple" ≠ some (T t)) :
    Write mongod T db [t] =
      (Function.update db RelationTuple.Collection
        (some ⟨c.docs ++ [Write.doc T t], c.unique⟩), none) := by
  have hcol : collides c (Write.doc T t) = false := by
    rw [Bool.eq_false_iff]
    intro h
    simp only [collides, hu, List.any_cons, List.any_nil, Bool.or_false, List.any_eq_true,
      beq_iff_eq, doc_lookup_tuple] at h
    obtain ⟨d, hd, hv⟩ := h
    exact hfresh d hd hv
  rw [Write_mongod]
  simp [hc, mongod.insertLoop, hcol]

/-- C4: `Write` maps the result of `InsertMany` as follows, for every driver:
it returns nil exactly when the insert returned nil, `ErrUniqueConstraint` when
the insert returned a duplicate-key error, and any other error unchanged. On
the reference backend with the unique index on `tuple`, writing a tuple that is
not stored succeeds, writing it a second time returns `ErrUniqueConstraint`,
and so does every batch containing a tuple whose canonical string is stored. -/
theorem Write_duplicate_is_unique_constraint {σ : Type} (D : Driver σ)
    (T : RelationTuple → String) (s : σ) (ts : List RelationTuple)
    (db : DB) (c : Coll) (t : RelationTuple)
    (hc : db RelationTuple.Collection = some c) (hu : c.unique = ["tuple"])
    (hfresh : ∀ d ∈ c.docs, d.lookup "tuple" ≠ some (T t)) :
    ((Write D T s ts).2 = none ↔
      (D.InsertMany RelationTuple.Collection (ts.map (Write.doc T)) s).2 = none) ∧
    (∀ e, (D.InsertMany RelationTuple.Collection (ts.map (Write.doc T)) s).2 = some e →
      IsDuplicateKeyError e = true → (Write D T s ts).2 = some Error.ErrUniqueConstraint) ∧
    (∀ e, (D.InsertMany RelationTuple.Collection (ts.map (Write.doc T)) s).2 = some e →
      IsDuplicateKeyError e = false → (Write D T s ts).2 = some (Error.Driver e)) ∧
    (Write mongod T db [t]).2 = none ∧
    (Write mongod T (Write mongod T db [t]).1 [t]).2 = some Error.ErrUniqueConstraint ∧
    (∀ batch u, u ∈ batch → (∃ d ∈ c.docs, d.lookup "tuple" = some (T u)) →
      (Write mongod T db batch).2 = some Error.ErrUniqueConstraint) := by
  have hW := (Write_error_of_driver D T s ts).2
  have h1 := Write_fresh_single T db c hc hu t hfresh
  refine ⟨?_, ?_, ?_, ?_, ?_, ?_⟩
  · rw [hW]
    cases h : (D.InsertMany RelationTuple.Collection (ts.map (Write.doc T)) s).2 with
    | none => simp
    | some e => cases hd : IsDuplicateKeyError e <;> simp [hd]
  · intro e he hd
    rw [hW, he]
    simp [hd]
  · intro e he hd
    rw [hW, he]
    simp [hd]
  · rw [h1]
  · rw [h1]
    exact Write_stored_duplicate T _ ⟨c.docs ++ [Write.doc T t], c.unique⟩
      (Function.update_same _ _ _) (by simp [hu]) [t] t (List.mem_singleton_self t)
      ⟨Write.doc T t, by simp, doc_lookup_tuple T t⟩
  · intro batch u hu' hs
    exact Write_stored_duplicate T db c hc (by simp [hu]) batch u hu' hs

theorem Write_duplicate_is_unique_constraint_witness :
    migrated RelationTuple.Collection = some ⟨[], ["tuple"]⟩ ∧
    (Write mongod RelationTuple.Tuple migrated [alice]).2 = none ∧
    (Write mongod RelationTuple.Tuple (Write mongod RelationTuple.Tuple migrated [alice]).1
      [alice]).2 = some Error.ErrUniqueConstraint :=
  ⟨rfl,
   (Write_duplicate_is_unique_constraint mongod RelationTuple.Tuple migrated [alice] migrated
      ⟨[], ["tuple"]⟩ alice rfl rfl (by simp)).2.2.2.1,
   (Write_duplicate_is_unique_constraint mongod RelationTuple.Tuple migrated [alice] migrated
      ⟨[], ["tuple"]⟩ alice rfl rfl (by simp)).2.2.2.2.1⟩


/-! ### QueryTuples -/

theorem valueLT_trans {x y z : Option String} (h1 : valueLT x y = true) (h2 : valueLT y z = true) :
    valueLT x z = true := by
  cases x <;> cases y <;> cases z <;> simp [valueLT] at h1 h2 ⊢
  exact lt_trans h1 h2

theorem valueLT_asymm {x y : Option String} (h : valueLT x y = true) : valueLT y x = false := by
  cases x <;> cases y <;> simp [valueLT] at h ⊢
  exact le_of_lt h

theorem valueLT_eq {x y : Option String} (h1 : valueLT x y = false) (h2 : valueLT y x = false) :
    x = y := by
  cases x <;> cases y <;> simp [valueLT] at h1 h2 ⊢
  exact String.ext (le_antisymm h2 h1)

theorem sortLE_total (ks : List String) (a b : Document) :
    sortLE ks a b = true ∨ sortLE ks b a = true := by
  induction ks with
  | nil => simp [sortLE]
  | cons k ks ih =>
    simp only [sortLE]
    cases hab : valueLT (a.lookup k) (b.lookup k) <;>
      cases hba : valueLT (b.lookup k) (a.lookup k) <;> simp [ih]

theorem sortLE_trans (ks : List String) (a b c : Document)
    (h1 : sortLE ks a b = true) (h2 : sortLE ks b c = true) : sortLE ks a c = true := by
  induction ks with
  | nil => simp [sortLE]
  | cons k ks ih =>
    simp only [sortLE] at h1 h2 ⊢
    cases hab : valueLT (a.lookup k) (b.lookup k) with
    | true =>
      cases hbc : valueLT (b.lookup k) (c.lookup k) with
      | true => simp [valueLT_trans hab hbc]
      | false =>
        cases hcb : valueLT (c.lookup k) (b.lookup k) with
        | true => simp [hbc, hcb] at h2
        | false =>
          rw [← valueLT_eq hbc hcb]
          simp [hab]
    | false =>
      cases hba : valueLT (b.lookup k) (a.lookup k) with
      | true => simp [hab, hba] at h1
      | false =>
        have hk := valueLT_eq hab hba
        rw [hab, hba] at h1
        rw [hk]
        cases hbc : valueLT (b.lookup k) (c.lookup k) with
        | true => simp
        | false =>
          cases hcb : valueLT (c.lookup k) (b.lookup k) with
          | true => simp [hbc, hcb] at h2
          | false =>
            simp only [hbc, hcb, Bool.false_eq_true, if_false] at h2 ⊢
            simp only [Bool.false_eq_true, if_false] at h1
            exact ih h1 h2


theorem decode_doc (T : RelationTuple → String) (t : RelationTuple) :
    mongod.decode (Write.doc T t) = t := rfl

theorem Matches_doc (T : RelationTuple → String) (t : RelationTuple)
    (entity objectID relation : String) :
    Matches [("entity", entity), ("object_id", objectID), ("relation", relation)] (Write.doc T t) =
      decide (t.Entity = entity ∧ t.ObjectID = objectID ∧ t.Relation = relation) := by
  have h1 : (Write.doc T t).lookup "entity" = some t.Entity := rfl
  have h2 : (Write.doc T t).lookup "object_id" = some t.ObjectID := rfl
  have h3 : (Write.doc T t).lookup "relation" = some t.Relation := rfl
  rw [Bool.eq_iff_iff]
  simp [Matches, h1, h2, h3]

theorem usersetLE_of_sortLE (T : RelationTuple → String) (a b : RelationTuple)
    (h : sortLE ["userset_entity", "userset_relation"] (Write.doc T a) (Write.doc T b) = true) :
    usersetLE a b := by
  have ha1 : (Write.doc T a).lookup "userset_entity" = some a.UsersetEntity := rfl
  have ha2 : (Write.doc T a).lookup "userset_relation" = some a.UsersetRelation := rfl
  have hb1 : (Write.doc T b).lookup "userset_entity" = some b.UsersetEntity := rfl
  have hb2 : (Write.doc T b).lookup "userset_relation" = some b.UsersetRelation := rfl
  simp only [sortLE, ha1, ha2, hb1, hb2] at h
  unfold usersetLE
  by_cases h1 : valueLT (some a.UsersetEntity) (some b.UsersetEntity) = true
  · left
    rw [String.lt_iff_toList_lt]
    simpa [valueLT] using h1
  · rw [Bool.not_eq_true] at h1
    by_cases h2 : valueLT (some b.UsersetEntity) (some a.UsersetEntity) = true
    · simp [h1, h2] at h
    · rw [Bool.not_eq_true] at h2
      right
      refine ⟨Option.some.inj (valueLT_eq h1 h2), ?_⟩
      by_cases h3 : valueLT (some b.UsersetRelation) (some a.UsersetRelation) = true
      · have h4 := valueLT_asymm h3
        simp [h1, h2, h3, h4] at h
      · rw [String.le_iff_toList_le]
        simpa [valueLT] using h3

/-- C5: on the reference backend, when the relation-tuple collection holds the
documents `Write` builds for the tuples `ts`, `QueryTuples` succeeds and its
result is a rearrangement of the tuples of `ts` whose entity, object id and
relation equal the three arguments (each as often as it is stored, no other
tuple), sorted ascending by the pair (userset_entity, userset_relation). -/
theorem QueryTuples_exact_and_sorted (T : RelationTuple → String) (db : DB) (c : Coll)
    (ts : List RelationTuple) (entity objectID relation : String)
    (hc : db RelationTuple.Collection = some c) (hd : c.docs = ts.map (Write.doc T)) :
    ∃ res, QueryTuples mongod db entity objectID relation = .ok res ∧
      res.Perm (ts.filter fun t =>
        decide (t.Entity = entity ∧ t.ObjectID = objectID ∧ t.Relation = relation)) ∧
      (∀ t, t ∈ res ↔
        t ∈ ts ∧ t.Entity = entity ∧ t.ObjectID = objectID ∧ t.Relation = relation) ∧
      res.Sorted usersetLE := by
  haveI : IsTotal Document
      (fun a b => sortLE ["userset_entity", "userset_relation"] a b = true) :=
    ⟨sortLE_total _⟩
  haveI : IsTrans Document
      (fun a b => sortLE ["userset_entity", "userset_relation"] a b = true) :=
    ⟨sortLE_trans _⟩
  have hF : Driver.Find mongod = mongod.Find := rfl
  have hA : Driver.All mongod = mongod.All := rfl
  have hfilter : c.docs.filter
      (Matches [("entity", entity), ("object_id", objectID), ("relation", relation)]) =
      (ts.filter fun t =>
        decide (t.Entity = entity ∧ t.ObjectID = objectID ∧ t.Relation = relation)).map
        (Write.doc T) := by
    rw [hd, List.filter_map]
    congr 1
    apply List.filter_congr
    intro t _
    exact Matches_doc T t entity objectID relation
  have hperm := List.perm_insertionSort
    (fun a b => sortLE ["userset_entity", "userset_relation"] a b = true)
    (c.docs.filter (Matches [("entity", entity), ("object_id", objectID), ("relation", relation)]))
  have hsorted := List.sorted_insertionSort
    (fun a b => sortLE ["userset_entity", "userset_relation"] a b = true)
    (c.docs.filter (Matches [("entity", entity), ("object_id", objectID), ("relation", relation)]))
  have hres : (List.map mongod.decode (List.insertionSort
      (fun a b => sortLE ["userset_entity", "userset_relation"] a b = true)
      (c.docs.filter
        (Matches [("entity", entity), ("object_id", objectID), ("relation", relation)])))).Perm
      (ts.filter fun t =>
        decide (t.Entity = entity ∧ t.ObjectID = objectID ∧ t.Relation = relation)) := by
    have h1 := hperm.map mongod.decode
    rw [hfilter, List.map_map] at h1
    have h2 : (mongod.decode ∘ Write.doc T) = id := funext fun t => decode_doc T t
    rw [h2, List.map_id] at h1
    rw [hfilter]
    exact h1
  refine ⟨_, by simp only [QueryTuples, hF, hA, mongod.Find, mongod.All, hc], hres, ?_, ?_⟩
  · intro t
    rw [hres.mem_iff]
    simp
  · refine List.pairwise_map.2 (hsorted.imp_of_mem ?_)
    intro a b ha hb hab
    have ha1 := hperm.mem_iff.1 ha
    have hb1 := hperm.mem_iff.1 hb
    rw [hfilter] at ha1 hb1
    obtain ⟨ta, -, rfl⟩ := List.mem_map.1 ha1
    obtain ⟨tb, -, rfl⟩ := List.mem_map.1 hb1
    rw [decode_doc, decode_doc]
    exact usersetLE_of_sortLE T ta tb hab

theorem QueryTuples_exact_and_sorted_witness :
    (Write mongod RelationTuple.Tuple migrated [opsAdmin, alice2, engMember, alice]).1
      RelationTuple.Collection =
      some ⟨[opsAdmin, alice2, engMember, alice].map (Write.doc RelationTuple.Tuple), ["tuple"]⟩ ∧
    QueryTuples mongod
      (Write mongod RelationTuple.Tuple migrated [opsAdmin, alice2, engMember, alice]).1
      "document" "1" "owner" = .ok [opsAdmin, engMember, alice] ∧
    ∃ res, QueryTuples mongod
        (Write mongod RelationTuple.Tuple migrated [opsAdmin, alice2, engMember, alice]).1
        "document" "1" "owner" = .ok res ∧
      res.Perm ([opsAdmin, alice2, engMember, alice].filter fun t =>
        decide (t.Entity = "document" ∧ t.ObjectID = "1" ∧ t.Relation = "owner")) ∧
      (∀ t, t ∈ res ↔
        t ∈ [opsAdmin, alice2, engMember, alice] ∧
          t.Entity = "document" ∧ t.ObjectID = "1" ∧ t.Relation = "owner") ∧
      res.Sorted usersetLE :=
  ⟨rfl, rfl, QueryTuples_exact_and_sorted RelationTuple.Tuple
    (Write mongod RelationTuple.Tuple migrated [opsAdmin, alice2, engMember, alice]).1
    ⟨[opsAdmin, alice2, engMember, alice].map (Write.doc RelationTuple.Tuple), ["tuple"]⟩
    [opsAdmin, alice2, engMember, alice] "document" "1" "owner" rfl rfl⟩

end mongo

namespace ast

/-! ### Unique readability of printed expressions -/

theorem String_eq_chars (e : Expression) (h : wellFormed e = true) :
    e.String = some (String.mk (chars e)) := by
  induction e with
  | nil => simp [wellFormed] at h
  | Identifier tok v => rfl
  | PrefixExpression tok op v =>
    simp only [Expression.String, WriteString, chars, Option.some.injEq]
    apply String.ext
    simp [String.data_append]
  | InfixExpression tok l op r ihl ihr =>
    simp only [wellFormed, Bool.and_eq_true] at h
    simp only [Expression.String, WriteString, chars, ihl h.1.2, ihr h.2, Option.some.injEq]
    apply String.ext
    simp [String.data_append]

theorem ident_run (a : List Char) : ∀ (b x y : List Char),
    (∀ c ∈ a, identChar c = true) → (∀ c ∈ b, identChar c = true) → Stops x → Stops y →
    a ++ x = b ++ y → a = b ∧ x = y := by
  induction a with
  | nil =>
    intro b x y _ hb hx _ h
    cases b with
    | nil => exact ⟨rfl, by simpa using h⟩
    | cons c b =>
      have := hx c (b ++ y) (by simpa using h)
      rw [hb c (List.mem_cons_self _ _)] at this
      exact absurd this (by decide)
  | cons c a ih =>
    intro b x y ha hb hx hy h
    cases b with
    | nil =>
      have := hy c (a ++ x) (by simpa using h.symm)
      rw [ha c (List.mem_cons_self _ _)] at this
      exact absurd this (by decide)
    | cons c' b =>
      simp only [List.cons_append, List.cons.injEq] at h
      obtain ⟨h1, h2⟩ := ih b x y (fun d hd => ha d (List.mem_cons_of_mem _ hd))
        (fun d hd => hb d (List.mem_cons_of_mem _ hd)) hx hy h.2
      exact ⟨by rw [h.1, h1], h2⟩

theorem Stops_blank (t : List Char) : Stops (' ' :: t) := by
  intro c u h
  simp only [List.cons.injEq] at h
  rw [← h.1]
  decide

theorem Stops_paren (t : List Char) : Stops (')' :: t) := by
  intro c u h
  simp only [List.cons.injEq] at h
  rw [← h.1]
  decide

theorem Stops_of_Follows {r : List Char} (h : Follows r) : Stops r := by
  rcases h with rfl | ⟨t, rfl⟩ | ⟨op, R, t, -, -, rfl⟩
  · intro c t h
    cases h
  · exact Stops_paren t
  · exact Stops_blank _

theorem validIdent_chars {v : String} (h : validIdent v = true) :
    v.toList ≠ [] ∧ ∀ c ∈ v.toList, identChar c = true := by
  simp only [validIdent, Bool.and_eq_true, Bool.not_eq_true', List.isEmpty_eq_false,
    List.all_eq_true] at h
  exact h

theorem operator_chars {op : String} (h : op = "and" ∨ op = "or") :
    ∀ c ∈ op.toList, identChar c = true := by
  rcases h with rfl | rfl <;> decide


theorem operand_ne_operator (R : Expression) (hR : wellFormed R = true) (op : String)
    (hop : op = "and" ∨ op = "or") (t u : List Char) :
    chars R ++ ')' :: t ≠ op.toList ++ ' ' :: u := by
  intro h
  cases R with
  | nil => simp [wellFormed] at hR
  | Identifier tok w =>
    simp only [wellFormed] at hR
    have := (ident_run _ _ _ _ (validIdent_chars hR).2 (operator_chars hop)
      (Stops_paren t) (Stops_blank u) h).2
    simp at this
  | PrefixExpression tok o w =>
    simp only [wellFormed, Bool.and_eq_true, decide_eq_true_eq] at hR
    obtain ⟨rfl, -⟩ := hR
    simp only [chars, List.append_assoc, List.cons_append] at h
    have := (ident_run _ _ _ _ (by decide) (operator_chars hop)
      (Stops_blank _) (Stops_blank u) h).1
    rcases hop with rfl | rfl <;> exact absurd this (by decide)
  | InfixExpression tok l o r =>
    rcases hop with rfl | rfl <;> simp [chars] at h

theorem identifier_ne_not (v v' : String) (hv : validIdent v = true) (hv' : validIdent v' = true)
    (r r' : List Char) (hr : Follows r) (hr' : Follows r') :
    v.toList ++ r ≠ ("not".toList ++ ' ' :: v'.toList) ++ r' := by
  intro h
  rw [List.append_assoc, List.cons_append] at h
  obtain ⟨-, h2⟩ := ident_run _ _ _ _ (validIdent_chars hv).2 (by decide)
    (Stops_of_Follows hr) (Stops_blank _) h
  rcases hr with rfl | ⟨t, rfl⟩ | ⟨op, R, t, hop, hR, rfl⟩
  · simp at h2
  · simp at h2
  · simp only [List.cons.injEq, true_and] at h2
    obtain ⟨-, h4⟩ := ident_run _ _ _ _ (operator_chars hop) (validIdent_chars hv').2
      (Stops_blank _) (Stops_of_Follows hr') h2
    rcases hr' with rfl | ⟨t', rfl⟩ | ⟨op', R', t', hop', -, rfl⟩
    · simp at h4
    · simp at h4
    · simp only [List.cons.injEq, true_and] at h4
      exact operand_ne_operator R hR op' hop' t _ h4

theorem chars_append_inj (e : Expression) : ∀ (e' : Expression) (r r' : List Char),
    wellFormed e = true → wellFormed e' = true → Follows r → Follows r' →
    chars e ++ r = chars e' ++ r' → stripTokens e = stripTokens e' ∧ r = r' := by
  induction e with
  | nil => intro e' r r' h; simp [wellFormed] at h
  | Identifier tok v =>
    intro e' r r' h h' hr hr' heq
    simp only [wellFormed] at h
    cases e' with
    | nil => simp [wellFormed] at h'
    | Identifier tok' v' =>
      simp only [wellFormed] at h'
      obtain ⟨h1, h2⟩ := ident_run _ _ _ _ (validIdent_chars h).2 (validIdent_chars h').2
        (Stops_of_Follows hr) (Stops_of_Follows hr') heq
      exact ⟨by rw [stripTokens, stripTokens, String.ext h1], h2⟩
    | PrefixExpression tok' o' v' =>
      simp only [wellFormed, Bool.and_eq_true, decide_eq_true_eq] at h'
      obtain ⟨rfl, hv'⟩ := h'
      exact absurd heq (identifier_ne_not v v' h hv' r r' hr hr')
    | InfixExpression tok' l' o' r0' =>
      obtain ⟨hne, hall⟩ := validIdent_chars h
      cases hv : v.toList with
      | nil => exact absurd hv hne
      | cons c cs =>
        have hc := hall c (by rw [hv]; exact List.mem_cons_self _ _)
        simp only [chars, hv, List.cons_append, List.cons.injEq] at heq
        rw [heq.1] at hc
        exact absurd hc (by decide)
  | PrefixExpression tok o v =>
    intro e' r r' h h' hr hr' heq
    simp only [wellFormed, Bool.and_eq_true, decide_eq_true_eq] at h
    obtain ⟨rfl, hv⟩ := h
    cases e' with
    | nil => simp [wellFormed] at h'
    | Identifier tok' v' =>
      simp only [wellFormed] at h'
      exact absurd heq.symm (identifier_ne_not v' v h' hv r' r hr' hr)
    | PrefixExpression tok' o' v' =>
      simp only [wellFormed, Bool.and_eq_true, decide_eq_true_eq] at h'
      obtain ⟨rfl, hv'⟩ := h'
      simp only [chars, List.append_assoc, List.cons_append, List.append_cancel_left_eq,
        List.cons.injEq, true_and] at heq
      obtain ⟨h1, h2⟩ := ident_run _ _ _ _ (validIdent_chars hv).2 (validIdent_chars hv').2
        (Stops_of_Follows hr) (Stops_of_Follows hr') heq
      exact ⟨by rw [stripTokens, stripTokens, String.ext h1], h2⟩
    | InfixExpression tok' l' o' r0' =>
      simp [chars] at heq
  | InfixExpression tok l o r0 ihl ihr =>
    intro e' r r' h h' hr hr' heq
    simp only [wellFormed, Bool.and_eq_true, Bool.or_eq_true, decide_eq_true_eq] at h
    obtain ⟨⟨ho, hl⟩, hr0⟩ := h
    cases e' with
    | nil => simp [wellFormed] at h'
    | Identifier tok' v' =>
      simp only [wellFormed] at h'
      obtain ⟨hne, hall⟩ := validIdent_chars h'
      cases hv : v'.toList with
      | nil => exact absurd hv hne
      | cons c cs =>
        have hc := hall c (by rw [hv]; exact List.mem_cons_self _ _)
        simp only [chars, hv, List.cons_append, List.cons.injEq] at heq
        rw [← heq.1] at hc
        exact absurd hc (by decide)
    | PrefixExpression tok' o' v' =>
      simp only [wellFormed, Bool.and_eq_true, decide_eq_true_eq] at h'
      obtain ⟨rfl, -⟩ := h'
      simp [chars] at heq
    | InfixExpression tok' l' o' r0' =>
      simp only [wellFormed, Bool.and_eq_true, Bool.or_eq_true, decide_eq_true_eq] at h'
      obtain ⟨⟨ho', hl'⟩, hr0'⟩ := h'
      simp only [chars, List.cons_append, List.append_assoc, List.cons.injEq, true_and,
        List.nil_append] at heq
      obtain ⟨e1, h1⟩ := ihl l' _ _ hl hl' (Or.inr (Or.inr ⟨o, r0, r, ho, hr0, rfl⟩))
        (Or.inr (Or.inr ⟨o', r0', r', ho', hr0', rfl⟩)) heq
      simp only [List.cons.injEq, true_and] at h1
      obtain ⟨h2, h3⟩ := ident_run _ _ _ _ (operator_chars ho) (operator_chars ho')
        (Stops_blank _) (Stops_blank _) h1
      simp only [List.cons.injEq, true_and] at h3
      obtain ⟨e2, h4⟩ := ihr r0' _ _ hr0 hr0' (Or.inr (Or.inl ⟨r, rfl⟩))
        (Or.inr (Or.inl ⟨r', rfl⟩)) h3
      simp only [List.cons.injEq, true_and] at h4
      exact ⟨by rw [stripTokens, stripTokens, e1, e2, String.ext h2], h4⟩

/-- C7: for two expression trees built from identifiers (a non-empty value over
letters, digits, `_` and `.`), `not` applied to such a value, and `and` / `or`
with both operands present, `String` returns a text for each, and when the two
texts are equal the trees agree in shape, operators and identifier values, that
is, they are equal once their `Token` fields are erased. -/
theorem String_determines_expression (e e' : Expression)
    (h : wellFormed e = true) (h' : wellFormed e' = true) (hs : e.String = e'.String) :
    (∃ s, e.String = some s) ∧ stripTokens e = stripTokens e' := by
  refine ⟨⟨_, String_eq_chars e h⟩, ?_⟩
  rw [String_eq_chars e h, String_eq_chars e' h'] at hs
  have hc : chars e ++ [] = chars e' ++ [] := by
    rw [List.append_nil, List.append_nil]
    exact congrArg String.data (Option.some.inj hs)
  exact (chars_append_inj e e' [] [] h h' (Or.inl rfl) (Or.inl rfl) hc).1


theorem String_determines_expression_witness :
    wellFormed sampleExpression = true ∧ wellFormed sampleExpressionOtherTokens = true ∧
    sampleExpression.String = some "(viewer or (not banned and owner))" ∧
    sampleExpression.String = sampleExpressionOtherTokens.String ∧
    (∃ s, sampleExpression.String = some s) ∧
    stripTokens sampleExpression = stripTokens sampleExpressionOtherTokens :=
  ⟨by decide, by decide, by decide, by decide,
    String_determines_expression sampleExpression sampleExpressionOtherTokens
      (by decide) (by decide) (by decide)⟩

end ast

namespace ast

/-! ### Parentheses of printed expressions -/

theorem String_eq_chars_of_noNil (e : Expression) (h : noNil e = true) :
    e.String = some (String.mk (chars e)) := by
  induction e with
  | nil => simp [noNil] at h
  | Identifier tok v => rfl
  | PrefixExpression tok op v =>
    simp only [Expression.String, WriteString, chars, Option.some.injEq]
    apply String.ext
    simp [String.data_append]
  | InfixExpression tok l op r ihl ihr =>
    simp only [noNil, Bool.and_eq_true] at h
    simp only [Expression.String, WriteString, chars, ihl h.1, ihr h.2, Option.some.injEq]
    apply String.ext
    simp [String.data_append]

theorem count_of_not_hasParen {s : String} (h : hasParen s = false) :
    s.toList.count '(' = 0 ∧ s.toList.count ')' = 0 := by
  simp only [hasParen, Bool.or_eq_false_iff, List.contains_eq_any_beq, List.any_eq_false,
    beq_iff_eq] at h
  refine ⟨List.count_eq_zero.2 fun hm => ?_, List.count_eq_zero.2 fun hm => ?_⟩
  · exact h.1 _ hm rfl
  · exact h.2 _ hm rfl

theorem chars_count (e : Expression) (hv : valuesParenFree e = true)
    (ho : operatorsParenFree e = true) :
    (chars e).count '(' = infixNodes e ∧ (chars e).count ')' = infixNodes e := by
  induction e with
  | nil => simp [chars, infixNodes]
  | Identifier tok v =>
    simp only [valuesParenFree, Bool.not_eq_true'] at hv
    simpa [chars, infixNodes] using count_of_not_hasParen hv
  | PrefixExpression tok op v =>
    simp only [valuesParenFree, Bool.not_eq_true'] at hv
    simp only [operatorsParenFree, Bool.not_eq_true'] at ho
    have h1 := count_of_not_hasParen hv
    have h2 := count_of_not_hasParen ho
    simp only [String.toList] at h1 h2
    simp [chars, infixNodes, List.count_cons, h1.1, h1.2, h2.1, h2.2]
  | InfixExpression tok l op r ihl ihr =>
    simp only [valuesParenFree, Bool.and_eq_true] at hv
    simp only [operatorsParenFree, Bool.and_eq_true, Bool.not_eq_true'] at ho
    have h1 := count_of_not_hasParen ho.1.1
    have hl := ihl hv.1 ho.1.2
    have hr := ihr hv.2 ho.2
    simp only [chars, infixNodes, List.count_cons, List.count_append, List.count_nil, h1.1, h1.2,
      hl.1, hl.2, hr.1, hr.2]
    constructor
    · simp
    · simp
      omega

/-- C11 (as the claim states it, refuted): the infix expression over the
identifiers `a` and `b` with operator string `(` has no parenthesis in an
identifier value and one `InfixExpression` node, and its text `(a ( b)` has two
opening parentheses and one closing parenthesis. -/
theorem String_unbalanced_with_paren_operator :
    noNil parenOperator = true ∧ valuesParenFree parenOperator = true ∧
    infixNodes parenOperator = 1 ∧
    parenOperator.String = some "(a ( b)" ∧
    countChar '(' "(a ( b)" = 2 ∧ countChar ')' "(a ( b)" = 1 := by
  decide

/-- C11 (amended): an infix expression whose operands print prints as `(`,
the left text, a blank, the operator, a blank, the right text and `)`; and for
every tree of `Identifier`, `PrefixExpression` and `InfixExpression` nodes in
which neither an identifier value nor an operator string contains a
parenthesis, `String` returns a text with as many `(` as `)`, both equal to the
number of `InfixExpression` nodes of the tree. -/
theorem String_fully_parenthesised :
    (∀ (tok : Token) (left right : Expression) (op l r : String),
      left.String = some l → right.String = some r →
      (Expression.InfixExpression tok left op right).String =
        some ("(" ++ l ++ " " ++ op ++ " " ++ r ++ ")")) ∧
    (∀ e : Expression, noNil e = true → valuesParenFree e = true →
      operatorsParenFree e = true →
      ∃ s, e.String = some s ∧ countChar '(' s = infixNodes e ∧
        countChar ')' s = infixNodes e ∧ countChar '(' s = countChar ')' s) := by
  constructor
  · intro tok left right op l r hl hr
    simp only [Expression.String, WriteString, hl, hr, Option.some.injEq]
    apply String.ext
    simp [String.data_append]
  · intro e hn hv ho
    have hc := chars_count e hv ho
    refine ⟨_, String_eq_chars_of_noNil e hn, hc.1, hc.2, hc.1.trans hc.2.symm⟩

theorem String_fully_parenthesised_witness :
    noNil sampleExpression = true ∧ valuesParenFree sampleExpression = true ∧
    operatorsParenFree sampleExpression = true ∧ infixNodes sampleExpression = 2 ∧
    sampleExpression.String = some "(viewer or (not banned and owner))" ∧
    ∃ s, sampleExpression.String = some s ∧ countChar '(' s = infixNodes sampleExpression ∧
      countChar ')' s = infixNodes sampleExpression ∧ countChar '(' s = countChar ')' s :=
  ⟨by decide, by decide, by decide, by decide, by decide,
    String_fully_parenthesised.2 sampleExpression (by decide) (by decide) (by decide)⟩

end ast

namespace ast

/-! ### Tags of the expression variants -/

/-- C13: `Type` returns `identifier` for every identifier, `inflix` for every
infix expression and `prefix` for every prefix expression, whatever the fields
of the node; the three tags are pairwise distinct; and for every expression
that is not the nil interface both methods return, `IsInfix` returning true
exactly when the node is an infix expression, that is, exactly when `Type`
returns `inflix`. -/
theorem Type_and_IsInfix_tags :
    (∀ tok value, (Expression.Identifier tok value).Type = some "identifier") ∧
    (∀ tok left op right, (Expression.InfixExpression tok left op right).Type = some "inflix") ∧
    (∀ tok op value, (Expression.PrefixExpression tok op value).Type = some "prefix") ∧
    "identifier" ≠ "inflix" ∧ "identifier" ≠ "prefix" ∧ "inflix" ≠ "prefix" ∧
    (∀ e : Expression, e ≠ Expression.nil →
      ∃ b t, e.IsInfix = some b ∧ e.Type = some t ∧
        (b = true ↔ isInfixNode e = true) ∧ (b = true ↔ t = "inflix")) := by
  refine ⟨fun _ _ => rfl, fun _ _ _ _ => rfl, fun _ _ _ => rfl, by decide, by decide, by decide,
    fun e he => ?_⟩
  cases e with
  | nil => exact absurd rfl he
  | Identifier tok value =>
    exact ⟨false, "identifier", rfl, rfl, by simp [isInfixNode], by decide⟩
  | InfixExpression tok left op right =>
    exact ⟨true, "inflix", rfl, rfl, by simp [isInfixNode], by decide⟩
  | PrefixExpression tok op value =>
    exact ⟨false, "prefix", rfl, rfl, by simp [isInfixNode], by decide⟩

theorem Type_and_IsInfix_tags_witness :
    sampleExpression ≠ Expression.nil ∧
    sampleExpression.IsInfix = some true ∧ sampleExpression.Type = some "inflix" ∧
    ∃ b t, sampleExpression.IsInfix = some b ∧ sampleExpression.Type = some t ∧
      (b = true ↔ isInfixNode sampleExpression = true) ∧ (b = true ↔ t = "inflix") :=
  ⟨by decide, rfl, rfl, Type_and_IsInfix_tags.2.2.2.2.2.2 sampleExpression (by decide)⟩

end ast

namespace mongo

/-! ### Migrate and a failed `create` -/

theorem Migrate_traced {σ : Type} (D : Driver σ) (s : σ) (log : List Call) :
    Migrate (traced D) (s, log) =
      match (D.RunCommandCreate RelationTuple.Collection s).2 with
      | some _ =>
        (((D.RunCommandCreate RelationTuple.Collection s).1,
          log ++ [Call.RunCommandCreate RelationTuple.Collection]), none)
      | none =>
        (((D.CreateOneUnique RelationTuple.Collection "tuple"
            (D.RunCommandCreate RelationTuple.Collection s).1).1,
          log ++ [Call.RunCommandCreate RelationTuple.Collection,
            Call.CreateOneUnique RelationTuple.Collection "tuple"]),
          (D.CreateOneUnique RelationTuple.Collection "tuple"
            (D.RunCommandCreate RelationTuple.Collection s).1).2.map Error.Driver) := by
  simp only [Migrate, traced]
  rcases D.RunCommandCreate RelationTuple.Collection s with ⟨s1, _ | e⟩
  · simp only
    rcases D.CreateOneUnique RelationTuple.Collection "tuple" s1 with ⟨s2, _ | e2⟩ <;> simp
  · rfl

theorem Migrate_cases {σ : Type} (D : Driver σ) (s : σ) :
    Migrate D s =
      match (D.RunCommandCreate RelationTuple.Collection s).2 with
      | some _ => ((D.RunCommandCreate RelationTuple.Collection s).1, none)
      | none =>
        ((D.CreateOneUnique RelationTuple.Collection "tuple"
            (D.RunCommandCreate RelationTuple.Collection s).1).1,
          (D.CreateOneUnique RelationTuple.Collection "tuple"
            (D.RunCommandCreate RelationTuple.Collection s).1).2.map Error.Driver) := by
  simp only [Migrate]
  rcases D.RunCommandCreate RelationTuple.Collection s with ⟨s1, _ | e⟩
  · simp only
    rcases D.CreateOneUnique RelationTuple.Collection "tuple" s1 with ⟨s2, _ | e2⟩ <;> rfl
  · rfl

/-- C12: for every driver and backend state, when the `create` command returns
an error of any kind `Migrate` returns nil, leaves the state the command left
and makes no other driver call, so the unique index is not attempted; when
`create` succeeds `Migrate` makes exactly one more call, the creation of the
unique index on `tuple`, and returns its error or nil; so every error `Migrate`
returns is the error of the index creation after a successful `create`. -/
theorem Migrate_hides_failed_create {σ : Type} (D : Driver σ) (s : σ) :
    (∀ e, (D.RunCommandCreate RelationTuple.Collection s).2 = some e →
      Migrate D s = ((D.RunCommandCreate RelationTuple.Collection s).1, none) ∧
      (Migrate (traced D) (s, [])).1.2 = [Call.RunCommandCreate RelationTuple.Collection]) ∧
    ((D.RunCommandCreate RelationTuple.Collection s).2 = none →
      Migrate D s =
        ((D.CreateOneUnique RelationTuple.Collection "tuple"
            (D.RunCommandCreate RelationTuple.Collection s).1).1,
          (D.CreateOneUnique RelationTuple.Collection "tuple"
            (D.RunCommandCreate RelationTuple.Collection s).1).2.map Error.Driver) ∧
      (Migrate (traced D) (s, [])).1.2 =
        [Call.RunCommandCreate RelationTuple.Collection,
          Call.CreateOneUnique RelationTuple.Collection "tuple"]) ∧
    (∀ err, (Migrate D s).2 = some err →
      (D.RunCommandCreate RelationTuple.Collection s).2 = none ∧
      ∃ e, (D.CreateOneUnique RelationTuple.Collection "tuple"
          (D.RunCommandCreate RelationTuple.Collection s).1).2 = some e ∧
        err = Error.Driver e) := by
  rw [Migrate_cases, Migrate_traced]
  cases h : (D.RunCommandCreate RelationTuple.Collection s).2 with
  | none =>
    refine ⟨fun e he => by simp at he, fun _ => ⟨rfl, rfl⟩, fun err herr => ⟨rfl, ?_⟩⟩
    simp only [Option.map_eq_some'] at herr
    obtain ⟨e, he, rfl⟩ := herr
    exact ⟨e, he, rfl⟩
  | some e0 =>
    exact ⟨fun _ _ => ⟨rfl, rfl⟩, fun h0 => by simp at h0, fun err herr => by simp at herr⟩

theorem Migrate_hides_failed_create_witness :
    ((failing (DriverError.Other "unavailable")).RunCommandCreate RelationTuple.Collection
      DB.empty).2 = some (DriverError.Other "unavailable") ∧
    (Migrate (failing (DriverError.Other "unavailable")) DB.empty).2 = none ∧
    (Migrate (traced (failing (DriverError.Other "unavailable"))) (DB.empty, [])).1.2 =
      [Call.RunCommandCreate RelationTuple.Collection] ∧
    (mongod.RunCommandCreate RelationTuple.Collection unindexed).2 =
      some DriverError.NamespaceExists ∧
    (Migrate mongod unindexed).2 = none ∧
    (Migrate (traced mongod) (unindexed, [])).1.2 =
      [Call.RunCommandCreate RelationTuple.Collection] ∧
    (Migrate (traced mongod) (DB.empty, [])).1.2 =
      [Call.RunCommandCreate RelationTuple.Collection,
        Call.CreateOneUnique RelationTuple.Collection "tuple"] :=
  ⟨rfl,
   congrArg Prod.snd ((Migrate_hides_failed_create (failing (DriverError.Other "unavailable"))
      DB.empty).1 (DriverError.Other "unavailable") rfl).1,
   ((Migrate_hides_failed_create (failing (DriverError.Other "unavailable"))
      DB.empty).1 (DriverError.Other "unavailable") rfl).2,
   rfl,
   congrArg Prod.snd ((Migrate_hides_failed_create mongod unindexed).1
      DriverError.NamespaceExists rfl).1,
   ((Migrate_hides_failed_create mongod unindexed).1 DriverError.NamespaceExists rfl).2,
   ((Migrate_hides_failed_create mongod DB.empty).2.1 rfl).2⟩

end mongo

namespace mongo

/-! ### Migrate twice -/

theorem create_of_present (db : DB) (c : Coll) (h : db RelationTuple.Collection = some c) :
    mongod.RunCommandCreate RelationTuple.Collection db =
      (db, some DriverError.NamespaceExists) := by
  simp [mongod.RunCommandCreate, h]

theorem create_of_absent (db : DB) (h : db RelationTuple.Collection = none) :
    mongod.RunCommandCreate RelationTuple.Collection db = (DB.created db, none) := by
  simp [mongod.RunCommandCreate, h, DB.created]

theorem withIndexFault_failed_create_keeps (fault : DB → Option DriverError) (db : DB)
    (e : DriverError)
    (h : ((mongodWithIndexFault fault).RunCommandCreate RelationTuple.Collection db).2 = some e) :
    ((mongodWithIndexFault fault).RunCommandCreate RelationTuple.Collection db).1 = db := by
  change (mongod.RunCommandCreate RelationTuple.Collection db).2 = some e at h
  change (mongod.RunCommandCreate RelationTuple.Collection db).1 = db
  cases hc : db RelationTuple.Collection with
  | none => rw [create_of_absent db hc] at h; simp at h
  | some c => rw [create_of_present db c hc]

theorem CreateOneUnique_present (c k : String) (db : DB) :
    ∃ coll, (mongod.CreateOneUnique c k db).1 c = some coll := by
  unfold mongod.CreateOneUnique
  simp only
  split_ifs <;> exact ⟨_, Function.update_same _ _ _⟩

theorem withIndexFault_create_refuses (fault : DB → Option DriverError) (db : DB)
    (h : ((mongodWithIndexFault fault).RunCommandCreate RelationTuple.Collection db).2 = none) :
    ((mongodWithIndexFault fault).RunCommandCreate RelationTuple.Collection
      ((mongodWithIndexFault fault).CreateOneUnique RelationTuple.Collection "tuple"
        ((mongodWithIndexFault fault).RunCommandCreate RelationTuple.Collection db).1).1).2
      ≠ none := by
  simp only [mongodWithIndexFault] at h ⊢
  cases hc : db RelationTuple.Collection with
  | some c => rw [create_of_present db c hc] at h; simp at h
  | none =>
    rw [create_of_absent db hc]
    simp only
    cases fault (DB.created db) with
    | some e =>
      simp only
      rw [create_of_present (DB.created db) ⟨[], []⟩ (Function.update_same _ _ _)]
      simp
    | none =>
      simp only
      obtain ⟨coll, hcoll⟩ := CreateOneUnique_present RelationTuple.Collection "tuple"
        (DB.created db)
      rw [create_of_present _ coll hcoll]
      simp

theorem Migrate_withIndexFault (fault : DB → Option DriverError) (db : DB) :
    Migrate (mongodWithIndexFault fault) db =
      match db RelationTuple.Collection with
      | some _ => (db, none)
      | none =>
        match fault (DB.created db) with
        | some e => (DB.created db, some (Error.Driver e))
        | none =>
          (Function.update db RelationTuple.Collection (some ⟨[], ["tuple"]⟩), none) := by
  rw [Migrate_cases]
  simp only [mongodWithIndexFault]
  cases hc : db RelationTuple.Collection with
  | some c => rw [create_of_present db c hc]
  | none =>
    rw [create_of_absent db hc]
    simp only
    cases fault (DB.created db) with
    | some e => rfl
    | none =>
      simp [mongod.CreateOneUnique, DB.created, hasDuplicate]

theorem Migrate_second_call {σ : Type} (D : Driver σ) (s : σ)
    (hkeep : ∀ s e, (D.RunCommandCreate RelationTuple.Collection s).2 = some e →
      (D.RunCommandCreate RelationTuple.Collection s).1 = s)
    (hrefuse : ∀ s, (D.RunCommandCreate RelationTuple.Collection s).2 = none →
      (D.RunCommandCreate RelationTuple.Collection
        (D.CreateOneUnique RelationTuple.Collection "tuple"
          (D.RunCommandCreate RelationTuple.Collection s).1).1).2 ≠ none) :
    Migrate D (Migrate D s).1 = ((Migrate D s).1, none) := by
  have hfail : ∀ s', (D.RunCommandCreate RelationTuple.Collection s').2 ≠ none →
      Migrate D s' = (s', none) := by
    intro s' hs'
    rw [Migrate_cases]
    cases h : (D.RunCommandCreate RelationTuple.Collection s').2 with
    | none => exact absurd h hs'
    | some e => simp only [hkeep s' e h]
  cases h : (D.RunCommandCreate RelationTuple.Collection s).2 with
  | some e =>
    have h1 := hfail s (by rw [h]; simp)
    rw [h1]
    exact h1
  | none =>
    have h1 : (Migrate D s).1 = (D.CreateOneUnique RelationTuple.Collection "tuple"
        (D.RunCommandCreate RelationTuple.Collection s).1).1 := by
      rw [Migrate_cases, h]
    rw [h1]
    exact hfail _ (hrefuse s h)

/-- C8 (amended): on a backend whose `create` command changes nothing when it
fails and fails once the collection has been created, two calls of `Migrate` in
a row leave the state of a single call and the second call returns nil; the two
calls return the same result exactly when the first returns nil. The reference
backend satisfies these two conditions whatever faults its index creation has,
and on it, after `Migrate`, the relation-tuple collection exists; a collection
that existed is left as it was; a missing collection is created with the unique
index on `tuple` when the index creation succeeds, and is left without it, with
the error returned, when the index creation fails; so the index is there
afterwards exactly when it was there before or the call created the collection
and the index creation succeeded. -/
theorem Migrate_idempotent_on_state {σ : Type} (D : Driver σ) (s : σ)
    (hkeep : ∀ s e, (D.RunCommandCreate RelationTuple.Collection s).2 = some e →
      (D.RunCommandCreate RelationTuple.Collection s).1 = s)
    (hrefuse : ∀ s, (D.RunCommandCreate RelationTuple.Collection s).2 = none →
      (D.RunCommandCreate RelationTuple.Collection
        (D.CreateOneUnique RelationTuple.Collection "tuple"
          (D.RunCommandCreate RelationTuple.Collection s).1).1).2 ≠ none) :
    (Migrate D (Migrate D s).1).1 = (Migrate D s).1 ∧
    (Migrate D (Migrate D s).1).2 = none ∧
    ((Migrate D s).2 = none ↔ Migrate D (Migrate D s).1 = Migrate D s) ∧
    (∀ (fault : DB → Option DriverError) (db : DB),
      (∀ e, ((mongodWithIndexFault fault).RunCommandCreate RelationTuple.Collection db).2 =
          some e →
        ((mongodWithIndexFault fault).RunCommandCreate RelationTuple.Collection db).1 = db) ∧
      (((mongodWithIndexFault fault).RunCommandCreate RelationTuple.Collection db).2 = none →
        ((mongodWithIndexFault fault).RunCommandCreate RelationTuple.Collection
          ((mongodWithIndexFault fault).CreateOneUnique RelationTuple.Collection "tuple"
            ((mongodWithIndexFault fault).RunCommandCreate
              RelationTuple.Collection db).1).1).2 ≠ none) ∧
      (∃ c, (Migrate (mongodWithIndexFault fault) db).1 RelationTuple.Collection = some c) ∧
      (∀ c, db RelationTuple.Collection = some c →
        Migrate (mongodWithIndexFault fault) db = (db, none)) ∧
      (db RelationTuple.Collection = none → fault (DB.created db) = none →
        (Migrate (mongodWithIndexFault fault) db).2 = none ∧
        DB.tupleIndexes (Migrate (mongodWithIndexFault fault) db).1 = ["tuple"] ∧
        DB.tupleDocs (Migrate (mongodWithIndexFault fault) db).1 = []) ∧
      (∀ e, db RelationTuple.Collection = none → fault (DB.created db) = some e →
        (Migrate (mongodWithIndexFault fault) db).2 = some (Error.Driver e) ∧
        DB.tupleIndexes (Migrate (mongodWithIndexFault fault) db).1 = [] ∧
        DB.tupleDocs (Migrate (mongodWithIndexFault fault) db).1 = []) ∧
      ("tuple" ∈ DB.tupleIndexes (Migrate (mongodWithIndexFault fault) db).1 ↔
        "tuple" ∈ DB.tupleIndexes db ∨
          (db RelationTuple.Collection = none ∧ fault (DB.created db) = none))) ∧
    (mongodWithIndexFault fun _ => none) = mongod := by
  have h2 := Migrate_second_call D s hkeep hrefuse
  refine ⟨by rw [h2], by rw [h2], ⟨fun h => ?_, fun h => ?_⟩, fun fault db => ?_, rfl⟩
  · rw [h2]
    exact Prod.ext rfl h.symm
  · rw [← h, h2]
  · refine ⟨withIndexFault_failed_create_keeps fault db,
      withIndexFault_create_refuses fault db, ?_⟩
    rw [Migrate_withIndexFault]
    cases hc : db RelationTuple.Collection with
    | some c => simp [hc, DB.tupleIndexes]
    | none =>
      cases hf : fault (DB.created db) with
      | some e => simp [DB.tupleIndexes, DB.tupleDocs, DB.created, hc]
      | none => simp [DB.tupleIndexes, DB.tupleDocs, hc]

theorem Migrate_idempotent_on_state_witness :
    (Migrate indexUnavailable DB.empty).2 =
      some (Error.Driver (DriverError.Other "unavailable")) ∧
    (Migrate indexUnavailable (Migrate indexUnavailable DB.empty).1).1 =
      (Migrate indexUnavailable DB.empty).1 ∧
    (Migrate indexUnavailable (Migrate indexUnavailable DB.empty).1).2 = none ∧
    DB.tupleIndexes (Migrate indexUnavailable (Migrate indexUnavailable DB.empty).1).1 = [] ∧
    (Migrate mongod DB.empty).2 = none ∧
    (Migrate mongod (Migrate mongod DB.empty).1).1 = (Migrate mongod DB.empty).1 ∧
    (Migrate mongod (Migrate mongod DB.empty).1).2 = none ∧
    DB.tupleIndexes (Migrate mongod (Migrate mongod DB.empty).1).1 = ["tuple"] :=
  ⟨rfl,
   (Migrate_idempotent_on_state indexUnavailable DB.empty
      (withIndexFault_failed_create_keeps _) (withIndexFault_create_refuses _)).1,
   (Migrate_idempotent_on_state indexUnavailable DB.empty
      (withIndexFault_failed_create_keeps _) (withIndexFault_create_refuses _)).2.1,
   rfl,
   rfl,
   (Migrate_idempotent_on_state mongod DB.empty
      (withIndexFault_failed_create_keeps fun _ => none)
      (withIndexFault_create_refuses fun _ => none)).1,
   (Migrate_idempotent_on_state mongod DB.empty
      (withIndexFault_failed_create_keeps fun _ => none)
      (withIndexFault_create_refuses fun _ => none)).2.1,
   rfl⟩

end mongo
